import Mathlib

set_option linter.unusedVariables false

/-! Shallow embedding of the flou diagram pipeline (crates/flou/src):
positions (pos.rs), the AST (parse/ast.rs), the grid index and destination
resolver (parts/grid.rs), the attribute / connection / merge pipeline
(parts/flou.rs) and the orthogonal router (render_svg/path.rs). -/

/-- Two-dimensional integer position (Position2D in pos.rs). The Rust
phantom unit parameter distinguishing IndexSpace, PaddedSpace and
PixelSpace is tracked here only through the IndexPos / PaddedPos
abbreviations and explicit conversion functions. -/
structure Pos2 where
  x : Int
  y : Int
deriving DecidableEq, Repr

/-- Componentwise addition (impl Add for Position2D). -/
def Pos2.add (a b : Pos2) : Pos2 := ⟨a.x + b.x, a.y + b.y⟩

instance : Add Pos2 := ⟨Pos2.add⟩

/-- Componentwise subtraction (impl Sub for Position2D). -/
def Pos2.sub (a b : Pos2) : Pos2 := ⟨a.x - b.x, a.y - b.y⟩

instance : Sub Pos2 := ⟨Pos2.sub⟩

/-- Position2D::in_bounds: zero-based half-open range check on both axes. -/
def Pos2.inBounds (p bounds : Pos2) : Bool :=
  decide (0 ≤ p.x) && decide (p.x < bounds.x) &&
  decide (0 ≤ p.y) && decide (p.y < bounds.y)

/-- Cell coordinate in the author-visible grid (IndexPos in pos.rs). -/
abbrev IndexPos := Pos2

/-- Coordinate in the finer routing space (PaddedPos in parts/grid.rs and
render_svg/renderer.rs, both with PADDING = 1). -/
abbrev PaddedPos := Pos2

/-- From&lt;IndexPos&gt; for PaddedPos: other * (PADDING + 1) + PADDING with
PADDING = 1. -/
def paddedOfIndex (p : IndexPos) : PaddedPos := ⟨p.x * 2 + 1, p.y * 2 + 1⟩

/-- From&lt;PaddedPos&gt; for IndexPos: (other - PADDING) / (PADDING + 1), with
Rust's truncating isize division. -/
def indexOfPadded (p : PaddedPos) : IndexPos := ⟨(p.x - 1).tdiv 2, (p.y - 1).tdiv 2⟩

/-- Direction (parse/ast.rs). -/
inductive Direction
  | north
  | south
  | west
  | east
deriving DecidableEq, Repr

/-- From&lt;Direction&gt; for Position2D (pos.rs): the unit vector of a
direction, with y growing downwards. -/
def Direction.vec : Direction → Pos2
  | .north => ⟨0, -1⟩
  | .south => ⟨0, 1⟩
  | .west => ⟨-1, 0⟩
  | .east => ⟨1, 0⟩

/-- Direction::reverse (render_svg/renderer.rs). -/
def Direction.reverse : Direction → Direction
  | .north => .south
  | .south => .north
  | .west => .east
  | .east => .west

/-- Direction::rotate_clockwise (render_svg/renderer.rs). -/
def Direction.rotateClockwise : Direction → Direction
  | .north => .east
  | .south => .west
  | .west => .north
  | .east => .south

/-- Identifier (parse/ast.rs): an interned name with value equality. -/
abbrev Identifier := String

/-- NodeShape (parse/ast.rs). -/
inductive NodeShape
  | rectangle
  | square
  | ellipse
  | circle
  | diamond
  | angledSquare
deriving DecidableEq, Repr

/-- ArrowheadType (parse/ast.rs); its Default impl is End. -/
inductive ArrowheadType
  | none
  | start
  | stop
  | both
deriving DecidableEq, Repr

/-- Default for ArrowheadType: End (named stop here since end is a Lean
keyword). -/
def ArrowheadType.default : ArrowheadType := .stop

/-- ConnectionAttribute (parse/ast.rs); cls stands for the class attribute
(class is a Lean keyword). -/
inductive ConnectionAttribute
  | text (s : String)
  | cls (s : String)
  | arrowheads (a : ArrowheadType)
deriving DecidableEq, Repr

/-- ConnectionAttribute::as_key. -/
def ConnectionAttribute.asKey : ConnectionAttribute → String
  | .text _ => "text"
  | .cls _ => "class"
  | .arrowheads _ => "arrowheads"

/-- Destination (parse/ast.rs). -/
inductive Destination
  | itself
  | relative (d : Direction)
  | label (l : Identifier)
deriving DecidableEq, Repr

/-- ConnectionDescriptor (parse/ast.rs): exit and entry sides, raw
destination and raw attribute list. -/
structure ConnectionDescriptor where
  dst : Destination
  sides : Direction × Direction
  attrs : List ConnectionAttribute
deriving DecidableEq, Repr

/-- NodeAttribute (parse/ast.rs). -/
inductive NodeAttribute
  | text (s : String)
  | cls (s : String)
  | shape (s : NodeShape)
  | connect (ds : List ConnectionDescriptor)
deriving DecidableEq, Repr

/-- NodeAttribute::as_key. -/
def NodeAttribute.asKey : NodeAttribute → String
  | .text _ => "text"
  | .cls _ => "class"
  | .shape _ => "shape"
  | .connect _ => "connect"

/-- Node (parse/ast.rs): identifier, optional label, raw attribute list. -/
structure Node where
  id : Identifier
  label : Option Identifier
  attrs : List NodeAttribute
deriving DecidableEq, Repr

/-- Grid AST (parse/ast.rs): rows of optional node slots. -/
structure ASTGrid where
  rows : List (List (Option Node))
deriving DecidableEq, Repr

/-- Document (parse/ast.rs). -/
structure Document where
  grid : ASTGrid
  definitions : List (Identifier × List NodeAttribute)
deriving DecidableEq, Repr

/-- Grid::nodes (parse/ast.rs): row-major enumeration of the occupied
slots with their cell positions. -/
def ASTGrid.nodes (g : ASTGrid) : List (IndexPos × Node) :=
  (g.rows.enum.map (fun yrow =>
    yrow.2.enum.filterMap (fun xslot =>
      xslot.2.map (fun n => ((⟨Int.ofNat xslot.1, Int.ofNat yrow.1⟩ : IndexPos), n))))).flatten

/-- Grid::size (parse/ast.rs): width is the longest row, height the number
of rows. -/
def ASTGrid.size (g : ASTGrid) : IndexPos :=
  ⟨Int.ofNat ((g.rows.map List.length).foldr max 0), Int.ofNat g.rows.length⟩

/-! Association-list machinery standing in for Rust's HashMap / HashSet.
Iteration order of a HashMap is unspecified in Rust; the embedding fixes
insertion order, which none of the verified properties depend on. -/

/-- HashMap::get as first-match lookup in an association list. -/
def alookup {K V : Type} [DecidableEq K] : List (K × V) → K → Option V
  | [], _ => Option.none
  | (k', v) :: rest, k => if k' = k then some v else alookup rest k

/-- HashMap::insert: replace the value in place when the key is present,
otherwise append a new entry. -/
def ainsert {K V : Type} [DecidableEq K] (l : List (K × V)) (k : K) (v : V) :
    List (K × V) :=
  if (alookup l k).isSome then
    l.map (fun kv => if kv.1 = k then (k, v) else kv)
  else
    l ++ [(k, v)]

/-- HashMap::remove: drop every entry with the given key. -/
def aremove {K V : Type} [DecidableEq K] : List (K × V) → K → List (K × V)
  | [], _ => []
  | kv :: rest, k => if kv.1 = k then aremove rest k else kv :: aremove rest k

/-- entry(k).or_default().push(v) on a map of vectors. -/
def apush {K V : Type} [DecidableEq K] (l : List (K × List V)) (k : K) (v : V) :
    List (K × List V) :=
  match alookup l k with
  | some _ => l.map (fun kv => if kv.1 = k then (kv.1, kv.2 ++ [v]) else kv)
  | Option.none => l ++ [(k, [v])]

/-- HashSet::insert: add the element unless already present. -/
def setInsert {V : Type} [DecidableEq V] (l : List V) (v : V) : List V :=
  if v ∈ l then l else l ++ [v]

/-! Grid index (parts/grid.rs). In this source the position-to-identifier
map is keyed by PaddedPos (cells sit at odd coordinates 2 * index + 1). -/

/-- Grid (parts/grid.rs): size bound plus the two lookup maps built from
the AST grid. -/
structure Grid where
  size : IndexPos
  positionToId : List (PaddedPos × Identifier)
  idToPositions : List (Identifier × List PaddedPos)
deriving DecidableEq, Repr

/-- Loop body of From&lt;&amp;ASTGrid&gt; for Grid: insert one occupied slot at its
padded position into both maps. -/
def gridStep (maps : List (PaddedPos × Identifier) × List (Identifier × List PaddedPos))
    (pn : IndexPos × Node) :
    List (PaddedPos × Identifier) × List (Identifier × List PaddedPos) :=
  let p := paddedOfIndex pn.1
  (ainsert maps.1 p pn.2.id, apush maps.2 pn.2.id p)

/-- From&lt;&amp;ASTGrid&gt; for Grid: inserts each occupied slot at its padded
position into both maps. -/
def gridOfAst (ag : ASTGrid) : Grid :=
  let maps := ag.nodes.foldl gridStep
    (([] : List (PaddedPos × Identifier)), ([] : List (Identifier × List PaddedPos)))
  ⟨ag.size, maps.1, maps.2⟩

/-- Grid::get_id (parts/grid.rs): None when out of bounds, otherwise the
map lookup result. -/
def Grid.getId (g : Grid) (p : PaddedPos) : Option (Option Identifier) :=
  if p.inBounds (paddedOfIndex g.size) then some (alookup g.positionToId p)
  else Option.none

/-- Loop body of Grid::walk, with explicit fuel; the source loop always
terminates because each step moves one unit towards the bounds check. -/
def Grid.walkAux (g : Grid) (step : PaddedPos) : PaddedPos → Nat → Option PaddedPos
  | _, 0 => Option.none
  | current, fuel + 1 =>
    let next := current + step
    match g.getId next with
    | Option.none => Option.none
    | some (some _) => some next
    | some Option.none => g.walkAux step next fuel

/-- Fuel that always outlasts the walk loop: the padded bounds plus slack. -/
def Grid.walkFuel (g : Grid) : Nat :=
  (2 * g.size.x + 1).toNat + (2 * g.size.y + 1).toNat + 2

/-- Grid::walk (parts/grid.rs): repeatedly advance by step, skip empty
in-bounds positions, stop at the first occupied position, give up on
leaving the bounds. -/
def Grid.walk (g : Grid) (start step : PaddedPos) : Option PaddedPos :=
  g.walkAux step start g.walkFuel

/-- Grid::get_positions (parts/grid.rs): all occurrences of an identifier,
converted back to cell positions. -/
def Grid.getPositions (g : Grid) (id : Identifier) : Option (List IndexPos) :=
  (alookup g.idToPositions id).map (fun ps => ps.map indexOfPadded)

/-- ResolutionError (parts/grid.rs). -/
inductive ResolutionError
  | invalidDirection (d : Direction)
  | unknownLabel (l : Identifier)
deriving DecidableEq, Repr

/-- Grid::normalize_destination (parts/grid.rs). The source match has arms
only for Relative and Label; the Itself variant of Destination has no arm,
modelled as Option.none (no defined result). -/
def Grid.normalizeDestination (g : Grid) (origin : IndexPos) (dst : Destination)
    (labels : List (Identifier × IndexPos)) :
    Option (Except ResolutionError PaddedPos) :=
  match dst with
  | .itself => Option.none
  | .relative dir =>
    some (match g.walk (paddedOfIndex origin) dir.vec with
          | some p => .ok p
          | Option.none => .error (.invalidDirection dir))
  | .label l =>
    some (match alookup labels l with
          | some pos => .ok (paddedOfIndex pos)
          | Option.none => .error (.unknownLabel l))

/-! Orthogonal router (render_svg/path.rs). -/

/-- Axis (render_svg/path.rs). -/
inductive Axis
  | x
  | y
deriving DecidableEq, Repr

/-- Axis::from_dir. -/
def Axis.fromDir : Direction → Axis
  | .north => .y
  | .south => .y
  | .west => .x
  | .east => .x

/-- FreeAxisCount (render_svg/path.rs): how many coordinates of a padded
position fall in a lane (even) rather than on a cell row or column (odd). -/
inductive FreeAxisCount
  | zero
  | one (a : Axis)
  | two
deriving DecidableEq, Repr

/-- Derived Ord on FreeAxisCount (variant order, then Axis order X before
Y), as produced by Rust's derive(PartialOrd, Ord). -/
def FreeAxisCount.cmp : FreeAxisCount → FreeAxisCount → Ordering
  | .zero, .zero => .eq
  | .zero, _ => .lt
  | .one _, .zero => .gt
  | .one .x, .one .x => .eq
  | .one .x, .one .y => .lt
  | .one .y, .one .x => .gt
  | .one .y, .one .y => .eq
  | .one _, .two => .lt
  | .two, .two => .eq
  | .two, _ => .gt

/-- FreeAxisCount::from_pos: classify a padded position by the parity of
its coordinates (odd coordinate = aligned with a cell). x &amp; 1 on isize
agrees with Euclidean mod 2 on Int, also for negatives. -/
def FreeAxisCount.fromPos (p : PaddedPos) : FreeAxisCount :=
  let xAligned := p.x % 2 == 1
  let yAligned := p.y % 2 == 1
  match xAligned, yAligned with
  | false, false => .two
  | false, true => .one .y
  | true, false => .one .x
  | true, true => .zero

/-- Position2D::x_direction. -/
def Pos2.xDirection (a b : Pos2) : Option Direction :=
  if a.x < b.x then some .east else if b.x < a.x then some .west else Option.none

/-- Position2D::y_direction. -/
def Pos2.yDirection (a b : Pos2) : Option Direction :=
  if a.y < b.y then some .south else if b.y < a.y then some .north else Option.none

/-- Position2D::straight_line: the direction from a to b when they share a
row or column and differ, None otherwise. -/
def Pos2.straightLine (a b : Pos2) : Option Direction :=
  let distance := b - a
  match distance.x == 0, distance.y == 0 with
  | false, false => Option.none
  | true, true => Option.none
  | false, true => Pos2.xDirection a b
  | true, false => Pos2.yDirection a b

/-- Position2D::x_distance. -/
def Pos2.xDistance (a b : Pos2) : Int := if a.x > b.x then a.x - b.x else b.x - a.x

/-- Position2D::y_distance. -/
def Pos2.yDistance (a b : Pos2) : Int := if a.y > b.y then a.y - b.y else b.y - a.y

/-- Position2D::taxicab. -/
def Pos2.taxicab (a b : Pos2) : Int := Pos2.xDistance a b + Pos2.yDistance a b

/-- PaddedPos::grid_x_aligned. -/
def Pos2.gridXAligned (p : Pos2) : Bool := p.x % 2 == 1

/-- PaddedPos::grid_y_aligned. -/
def Pos2.gridYAligned (p : Pos2) : Bool := p.y % 2 == 1

/-- PaddedPos::grid_aligned. -/
def Pos2.gridAligned (p : Pos2) : Bool := p.gridXAligned && p.gridYAligned

/-- PosSide (render_svg/path.rs): a cell position plus one of its sides. -/
structure PosSide where
  origin : IndexPos
  side : Direction
deriving DecidableEq, Repr

/-- From&lt;PosSide&gt; for PaddedPos: the link point, one lane-step outside the
cell's edge. -/
def PosSide.padded (s : PosSide) : PaddedPos := paddedOfIndex s.origin + s.side.vec

/-- Grid::padded_get_id (render_svg/path.rs): bounds check, then a map
lookup for grid-aligned positions; lane positions are always empty. -/
def Grid.paddedGetId (g : Grid) (p : PaddedPos) : Option (Option Identifier) :=
  if p.inBounds (paddedOfIndex g.size) then
    some (if p.gridAligned then alookup g.positionToId p else Option.none)
  else Option.none

/-- Loop body of Grid::padded_walk, with explicit fuel. When the optional
end position is reached the walk reports it only if occupied. -/
def Grid.paddedWalkAux (g : Grid) (endP : Option PaddedPos) (step : PaddedPos) :
    PaddedPos → Nat → Option PaddedPos
  | _, 0 => Option.none
  | current, fuel + 1 =>
    let next := current + step
    if endP = some next then
      match g.paddedGetId next with
      | Option.none => Option.none
      | some (some _) => some next
      | some Option.none => Option.none
    else
      match g.paddedGetId next with
      | Option.none => Option.none
      | some (some _) => some next
      | some Option.none => g.paddedWalkAux endP step next fuel

/-- Grid::padded_walk (render_svg/path.rs). -/
def Grid.paddedWalk (g : Grid) (start : PaddedPos) (endP : Option PaddedPos)
    (step : PaddedPos) : Option PaddedPos :=
  g.paddedWalkAux endP step start g.walkFuel

/-- line_does_not_overlap_nodes (render_svg/path.rs): a straight segment
starting on a one-free-axis point passes only over lanes or empty cells.
The true branch requires the walk to either leave bounds or reach exactly
the end point. -/
def lineDoesNotOverlapNodes (g : Grid) (p q : PaddedPos) : Bool :=
  match Pos2.straightLine p q with
  | Option.none => false
  | some dir =>
    match FreeAxisCount.fromPos p with
    | .one free =>
      if Axis.fromDir dir = free then true
      else
        match g.paddedWalk p (some q) dir.vec with
        | some dest => dest = q
        | Option.none => true
    | _ => false

/-- can_make_direct_connection (closure in get_best_corner): both legs from
the link points of a and b to the corner avoid nodes. -/
def canMakeDirectConnection (g : Grid) (a b : PosSide) (corner : PaddedPos) : Bool :=
  lineDoesNotOverlapNodes g a.padded corner && lineDoesNotOverlapNodes g b.padded corner

/-- Two-element sort_unstable_by on (corner, count) pairs, ascending by
FreeAxisCount; Rust's insertion sort swaps only on strictly-less. -/
def sortCornerPair (c0 c1 : PaddedPos × FreeAxisCount) :
    (PaddedPos × FreeAxisCount) × (PaddedPos × FreeAxisCount) :=
  if FreeAxisCount.cmp c1.2 c0.2 = .lt then (c1, c0) else (c0, c1)

/-- get_best_corner (render_svg/path.rs). Option.none models the
unreachable!() arm (both corner candidates scoring Two). -/
def getBestCorner (g : Grid) (a b : PosSide) : Option (PaddedPos × FreeAxisCount) :=
  let aPos := a.padded
  let bPos := b.padded
  if (Pos2.straightLine aPos bPos).isSome then
    let corner := aPos + (a.side.rotateClockwise).vec
    some (corner, FreeAxisCount.fromPos corner)
  else
    let c0 : PaddedPos × FreeAxisCount := (⟨aPos.x, bPos.y⟩, FreeAxisCount.fromPos ⟨aPos.x, bPos.y⟩)
    let c1 : PaddedPos × FreeAxisCount := (⟨bPos.x, aPos.y⟩, FreeAxisCount.fromPos ⟨bPos.x, aPos.y⟩)
    let sorted := sortCornerPair c0 c1
    let smaller := sorted.1
    let larger := sorted.2
    match smaller.2 with
    | .zero =>
      if canMakeDirectConnection g a b smaller.1 then some (smaller.1, .two)
      else some larger
    | .one _ =>
      if canMakeDirectConnection g a b smaller.1 then some (smaller.1, .two)
      else if canMakeDirectConnection g a b larger.1 then some (larger.1, .two)
      else some larger
    | .two => Option.none

/-- std::cmp::min_by_key over two (direction, corner) candidates, keyed by
total taxicab distance to both link points; the first argument wins ties. -/
def minByTaxicab (sFrom sTo : PaddedPos) (c0 c1 : Direction × PaddedPos) :
    Direction × PaddedPos :=
  if Pos2.taxicab sFrom c1.2 + Pos2.taxicab sTo c1.2 <
     Pos2.taxicab sFrom c0.2 + Pos2.taxicab sTo c0.2 then c1 else c0

/-- make_connection (closure in get_path): wrap the mid waypoints with the
two cell positions and the two link points. -/
def makeConnection (src dst : PosSide) (mid : List PaddedPos) : List PaddedPos :=
  [paddedOfIndex src.origin, src.padded] ++ mid ++ [dst.padded, paddedOfIndex dst.origin]

/-- get_path (render_svg/path.rs). Option.none models the unreachable!()
arm for a Zero-count corner; the PADDING assertion is vacuous since the
embedding fixes PADDING = 1. -/
def getPath (g : Grid) (fromPS toPS : IndexPos × Direction) : Option (List PaddedPos) :=
  let src : PosSide := ⟨fromPS.1, fromPS.2⟩
  let dst : PosSide := ⟨toPS.1, toPS.2⟩
  let sFrom := src.padded
  let sTo := dst.padded
  if sFrom = sTo then
    some [paddedOfIndex src.origin, paddedOfIndex dst.origin]
  else
    match Pos2.straightLine sFrom sTo with
    | some dir =>
      if lineDoesNotOverlapNodes g sFrom sTo then
        some (makeConnection src dst [])
      else
        let offset := (dir.rotateClockwise).vec
        some (makeConnection src dst [sFrom + offset, sTo + offset])
    | Option.none =>
      match getBestCorner g src dst with
      | Option.none => Option.none
      | some (corner, laneCount) =>
        match laneCount with
        | .two => some (makeConnection src dst [corner])
        | .one freeAxis =>
          let dirs : Direction × Direction :=
            match freeAxis with
            | .x => (.west, .east)
            | .y => (.north, .south)
          let chosen := minByTaxicab sFrom sTo
            (dirs.1, corner + (dirs.1).vec) (dirs.2, corner + (dirs.2).vec)
          let nudged := chosen.2
          let mid :=
            (if Pos2.straightLine sFrom nudged = Option.none then [sFrom + chosen.1.vec] else []) ++
            [nudged] ++
            (if Pos2.straightLine sTo nudged = Option.none then [sTo + chosen.1.vec] else [])
          some (makeConnection src dst mid)
        | .zero => Option.none

/-! Attribute resolution, merge engine and validation pipeline
(parts/flou.rs). -/

/-- NodeAttributes (parts/flou.rs, resolved). -/
structure NodeAttributes where
  text : Option String := Option.none
  cls : Option String := Option.none
  shape : Option NodeShape := Option.none
deriving DecidableEq, Repr

/-- ConnectionAttributes (parts/flou.rs, resolved). In this source the
struct has only text and class fields; there is no arrowheads field. -/
structure ConnectionAttributes where
  text : Option String := Option.none
  cls : Option String := Option.none
deriving DecidableEq, Repr

/-- TryFrom&lt;Vec&lt;ConnectionAttribute&gt;&gt; for ConnectionAttributes
(parts/flou.rs): fill the text/class slots on first occurrence; everything
else, including every Arrowheads attribute, lands in the duplicate set. -/
def ConnectionAttributes.tryFrom (attrs : List ConnectionAttribute) :
    Except (List String) ConnectionAttributes :=
  let result := attrs.foldl
    (fun (acc : ConnectionAttributes × List String) attr =>
      match attr with
      | .text t =>
        if acc.1.text.isNone then ({ acc.1 with text := some t }, acc.2)
        else (acc.1, setInsert acc.2 attr.asKey)
      | .cls c =>
        if acc.1.cls.isNone then ({ acc.1 with cls := some c }, acc.2)
        else (acc.1, setInsert acc.2 attr.asKey)
      | .arrowheads _ => (acc.1, setInsert acc.2 attr.asKey))
    ({}, [])
  if result.2.isEmpty then .ok result.1 else .error result.2

/-- parse_node_attributes (parts/flou.rs): fill the text/class/shape slots
and set aside the connect descriptor list, collecting duplicate kinds. -/
def parseNodeAttributes (attrs : List NodeAttribute) :
    Except (List String) (NodeAttributes × Option (List ConnectionDescriptor)) :=
  let result := attrs.foldl
    (fun (acc : NodeAttributes × Option (List ConnectionDescriptor) × List String) attr =>
      match attr with
      | .text t =>
        if acc.1.text.isNone then ({ acc.1 with text := some t }, acc.2.1, acc.2.2)
        else (acc.1, acc.2.1, setInsert acc.2.2 attr.asKey)
      | .cls c =>
        if acc.1.cls.isNone then ({ acc.1 with cls := some c }, acc.2.1, acc.2.2)
        else (acc.1, acc.2.1, setInsert acc.2.2 attr.asKey)
      | .shape s =>
        if acc.1.shape.isNone then ({ acc.1 with shape := some s }, acc.2.1, acc.2.2)
        else (acc.1, acc.2.1, setInsert acc.2.2 attr.asKey)
      | .connect ds =>
        if acc.2.1.isNone then (acc.1, some ds, acc.2.2)
        else (acc.1, acc.2.1, setInsert acc.2.2 attr.asKey))
    ({}, Option.none, [])
  if result.2.2.isEmpty then .ok (result.1, result.2.1) else .error result.2.2

/-- Loop body of try_into_label_map's first pass: record one label
occurrence (HashSet insert into the entry's position set). -/
def labelStep (acc : List (Identifier × List IndexPos)) (pn : IndexPos × Node) :
    List (Identifier × List IndexPos) :=
  match pn.2.label with
  | some l =>
    (match alookup acc l with
     | some s => ainsert acc l (setInsert s pn.1)
     | Option.none => acc ++ [(l, [pn.1])])
  | Option.none => acc

/-- Helper for try_into_label_map: the label-to-position-set map collected
over the grid nodes. -/
def labelPositions (g : ASTGrid) : List (Identifier × List IndexPos) :=
  g.nodes.foldl labelStep []

/-- Second pass of try_into_label_map: the labels attached to exactly one
position, with that position. -/
def uniqueLabelEntries (m : List (Identifier × List IndexPos)) :
    List (Identifier × IndexPos) :=
  m.filterMap
    (fun lp => match lp.2 with
               | [p] => some (lp.1, p)
               | _ => Option.none)

/-- Error payload of try_into_label_map: the entries whose position set
does not have exactly one element (after removing the unique labels). -/
def duplicateLabelEntries (m : List (Identifier × List IndexPos)) :
    List (Identifier × List IndexPos) :=
  m.filter (fun lp => !(decide (lp.2.length = 1)))

/-- try_into_label_map (parts/flou.rs): keep the labels that occur at
exactly one position; if any label occurs more often, fail with the map of
all multiply-occurring labels to all of their positions. -/
def tryIntoLabelMap (g : ASTGrid) :
    Except (List (Identifier × List IndexPos)) (List (Identifier × IndexPos)) :=
  let positions := labelPositions g
  let labels := uniqueLabelEntries positions
  if labels.length < positions.length then
    .error (duplicateLabelEntries positions)
  else
    .ok labels

/-- get_attributes_from_definitions (parts/flou.rs): resolve every
definition's attribute list, aggregating per-identifier duplicate sets. -/
def getAttributesFromDefinitions (definitions : List (Identifier × List NodeAttribute)) :
    Except (List (Identifier × List String))
      (List (Identifier × NodeAttributes) × List (Identifier × List ConnectionDescriptor)) :=
  let acc := definitions.foldl
    (fun (acc : List (Identifier × NodeAttributes) ×
                List (Identifier × List ConnectionDescriptor) ×
                List (Identifier × List String)) idAttrs =>
      match parseNodeAttributes idAttrs.2 with
      | .ok (na, descs) =>
        (ainsert acc.1 idAttrs.1 na,
         (match descs with
          | some ds => ainsert acc.2.1 idAttrs.1 ds
          | Option.none => acc.2.1),
         acc.2.2)
      | .error dups => (acc.1, acc.2.1, ainsert acc.2.2 idAttrs.1 dups))
    ([], [], [])
  if acc.2.2.isEmpty then .ok (acc.1, acc.2.1) else .error acc.2.2

/-- get_attributes_from_grid (parts/flou.rs): same resolution keyed by
grid position. -/
def getAttributesFromGrid (g : ASTGrid) :
    Except (List (IndexPos × List String))
      (List (IndexPos × NodeAttributes) × List (IndexPos × List ConnectionDescriptor)) :=
  let acc := g.nodes.foldl
    (fun (acc : List (IndexPos × NodeAttributes) ×
                List (IndexPos × List ConnectionDescriptor) ×
                List (IndexPos × List String)) pn =>
      match parseNodeAttributes pn.2.attrs with
      | .ok (na, descs) =>
        (ainsert acc.1 pn.1 na,
         (match descs with
          | some ds => ainsert acc.2.1 pn.1 ds
          | Option.none => acc.2.1),
         acc.2.2)
      | .error dups => (acc.1, acc.2.1, ainsert acc.2.2 pn.1 dups))
    ([], [], [])
  if acc.2.2.isEmpty then .ok (acc.1, acc.2.1) else .error acc.2.2

/-- ensure_definitions_are_unique (parts/flou.rs): first definition of an
identifier wins a map slot; later ones land in the duplicate set. -/
def ensureDefinitionsAreUnique (definitions : List (Identifier × List NodeAttribute)) :
    Except (List Identifier) (List (Identifier × List NodeAttribute)) :=
  let acc := definitions.foldl
    (fun (acc : List (Identifier × List NodeAttribute) × List Identifier) idAttrs =>
      match alookup acc.1 idAttrs.1 with
      | Option.none => (acc.1 ++ [idAttrs], acc.2)
      | some _ => (acc.1, setInsert acc.2 idAttrs.1))
    ([], [])
  if acc.2.isEmpty then .ok acc.1 else .error acc.2

/-- UnresolvedConnection (parts/flou.rs). -/
structure UnresolvedConnection where
  dst : Destination
  sides : Direction × Direction
  attrs : ConnectionAttributes
deriving DecidableEq, Repr

/-- parse_connection_desc_map (parts/flou.rs): resolve each descriptor's
attribute list, collecting duplicate sets keyed by owner and descriptor
index; the per-owner entry is inserted even when some descriptors fail. -/
def parseConnectionDescMap {K : Type} [DecidableEq K]
    (m : List (K × List ConnectionDescriptor)) :
    Except (List (K × List (Nat × List String))) (List (K × List UnresolvedConnection)) :=
  let acc := m.foldl
    (fun (acc : List (K × List UnresolvedConnection) ×
                List (K × List (Nat × List String))) kd =>
      let inner := kd.2.foldl
        (fun (inner : List UnresolvedConnection × List (Nat × List String) × Nat) desc =>
          match ConnectionAttributes.tryFrom desc.attrs with
          | .ok attrs =>
            (inner.1 ++ [⟨desc.dst, desc.sides, attrs⟩], inner.2.1, inner.2.2 + 1)
          | .error dups => (inner.1, ainsert inner.2.1 inner.2.2 dups, inner.2.2 + 1))
        ([], [], 0)
      (ainsert acc.1 kd.1 inner.1,
       if inner.2.1.isEmpty then acc.2 else ainsert acc.2 kd.1 inner.2.1))
    ([], [])
  if acc.2.isEmpty then .ok acc.1 else .error acc.2

/-- resolve_id_map (parts/flou.rs): fan a definition-keyed map out to every
grid position carrying that identifier. -/
def resolveIdMap {V : Type} (g : Grid) (m : List (Identifier × V)) :
    List (IndexPos × V) :=
  m.foldl
    (fun acc idv =>
      match g.getPositions idv.1 with
      | some ps => ps.foldl (fun acc p => ainsert acc p idv.2) acc
      | Option.none => acc)
    []

/-- Overwrite for NodeAttributes (parts/flou.rs): field-level, the new
record's field wins when present. -/
def overwriteNodeAttributes (old new : NodeAttributes) : NodeAttributes :=
  ⟨new.text.or old.text, new.cls.or old.cls, new.shape.or old.shape⟩

/-- Overwrite for Vec (parts/flou.rs): the new list replaces the old one
wholesale. -/
def overwriteList {V : Type} (old new : List V) : List V := new

/-- Overwrite for HashMap (parts/flou.rs): fold the new map's entries into
the old one, combining values for shared keys with the value overwrite. -/
def overwriteMap {K V : Type} [DecidableEq K] (f : V → V → V) :
    List (K × V) → List (K × V) → List (K × V)
  | old, [] => old
  | old, kv :: rest =>
    let combined :=
      match alookup old kv.1 with
      | some oldVal => f oldVal kv.2
      | Option.none => kv.2
    overwriteMap f (aremove old kv.1 ++ [(kv.1, combined)]) rest

/-- Connection (parts/flou.rs). In the source the declared type of the to
field is (IndexPos, Direction), but the value pushed by
resolve_connections_map is the PaddedPos returned by
normalize_destination; the embedding keeps the actual value. -/
structure Connection where
  src : IndexPos × Direction
  dst : PaddedPos × Direction
  attrs : ConnectionAttributes
deriving DecidableEq, Repr

/-- resolve_connections_map (parts/flou.rs): resolve every descriptor's
destination, aggregating per-origin, per-index resolution errors. The
outer Option propagates the undefined Itself case of
normalize_destination. -/
def resolveConnectionsMap (g : Grid) (labels : List (Identifier × IndexPos))
    (connectionsMap : List (IndexPos × List UnresolvedConnection)) :
    Option (Except (List (IndexPos × List (Nat × ResolutionError))) (List Connection)) :=
  let acc := connectionsMap.foldl
    (fun (acc : Option (List Connection × List (IndexPos × List (Nat × ResolutionError)))) fromConns =>
      match acc with
      | Option.none => Option.none
      | some acc =>
        fromConns.2.foldl
          (fun (inner : Option (List Connection × List (IndexPos × List (Nat × ResolutionError)) × Nat)) unresolved =>
            match inner with
            | Option.none => Option.none
            | some inner =>
              match g.normalizeDestination fromConns.1 unresolved.dst labels with
              | Option.none => Option.none
              | some (.ok toPos) =>
                some (inner.1 ++ [⟨(fromConns.1, unresolved.sides.1), (toPos, unresolved.sides.2), unresolved.attrs⟩],
                      inner.2.1, inner.2.2 + 1)
              | some (.error e) =>
                some (inner.1,
                      (match alookup inner.2.1 fromConns.1 with
                       | some m => ainsert inner.2.1 fromConns.1 (ainsert m inner.2.2 e)
                       | Option.none => inner.2.1 ++ [(fromConns.1, [(inner.2.2, e)])]),
                      inner.2.2 + 1))
          (some (acc.1, acc.2, 0))
        |>.map (fun inner => (inner.1, inner.2.1)))
    (some ([], []))
  acc.map (fun acc => if acc.2.isEmpty then .ok acc.1 else .error acc.2)

/-- LogicError (parts/error.rs). -/
inductive LogicError
  | duplicateLabels (m : List (Identifier × List IndexPos))
  | duplicateDefinitions (s : List Identifier)
  | duplicateNodeAttributesInDefinitions (m : List (Identifier × List String))
  | duplicateNodeAttributesInGrid (m : List (IndexPos × List String))
  | duplicateConnectionAttributesInDefinitions (m : List (Identifier × List (Nat × List String)))
  | duplicateConnectionAttributesInGrid (m : List (IndexPos × List (Nat × List String)))
  | invalidDestination (m : List (IndexPos × List (Nat × ResolutionError)))
deriving DecidableEq, Repr

/-- Flou (parts/flou.rs): the validated diagram. -/
structure Flou where
  grid : Grid
  connections : List Connection
  nodeAttributes : List (IndexPos × NodeAttributes)
deriving DecidableEq, Repr

/-- TryFrom&lt;Document&gt; for Flou (parts/flou.rs): the staged validation
pipeline. The outer Option propagates the undefined Itself case reachable
only inside destination resolution. -/
def flouTryFrom (d : Document) : Option (Except LogicError Flou) :=
  let g := gridOfAst d.grid
  match ensureDefinitionsAreUnique d.definitions with
  | .error e => some (.error (.duplicateDefinitions e))
  | .ok definitions =>
  match getAttributesFromDefinitions definitions with
  | .error e => some (.error (.duplicateNodeAttributesInDefinitions e))
  | .ok (defAttrsById, defDescById) =>
  match parseConnectionDescMap defDescById with
  | .error e => some (.error (.duplicateConnectionAttributesInDefinitions e))
  | .ok defConnsById =>
  let defAttrs := resolveIdMap g defAttrsById
  let defConnections := resolveIdMap g defConnsById
  match getAttributesFromGrid d.grid with
  | .error e => some (.error (.duplicateNodeAttributesInGrid e))
  | .ok (gridAttrs, gridDesc) =>
  match parseConnectionDescMap gridDesc with
  | .error e => some (.error (.duplicateConnectionAttributesInGrid e))
  | .ok gridConnections =>
  let nodeAttributes := overwriteMap overwriteNodeAttributes defAttrs gridAttrs
  let connections := overwriteMap (overwriteList (V := UnresolvedConnection)) defConnections gridConnections
  match tryIntoLabelMap d.grid with
  | .error e => some (.error (.duplicateLabels e))
  | .ok labels =>
  match resolveConnectionsMap g labels connections with
  | Option.none => Option.none
  | some (.error e) => some (.error (.invalidDestination e))
  | some (.ok cs) => some (.ok ⟨g, cs, nodeAttributes⟩)

/-- Success of every validation phase staged before label validation:
unique definitions and duplicate-free node and connection attributes, in
definitions as well as in the grid. -/
def attributePhasesOk (d : Document) : Bool :=
  match ensureDefinitionsAreUnique d.definitions with
  | .error _ => false
  | .ok definitions =>
  match getAttributesFromDefinitions definitions with
  | .error _ => false
  | .ok (_, defDescById) =>
  match parseConnectionDescMap defDescById with
  | .error _ => false
  | .ok _ =>
  match getAttributesFromGrid d.grid with
  | .error _ => false
  | .ok (_, gridDesc) =>
  match parseConnectionDescMap gridDesc with
  | .error _ => false
  | .ok _ => true

/-! Basic facts about the embedded operations. -/

theorem Pos2.add_x (a b : Pos2) : (a + b).x = a.x + b.x := rfl

theorem Pos2.add_y (a b : Pos2) : (a + b).y = a.y + b.y := rfl

theorem Pos2.sub_x (a b : Pos2) : (a - b).x = a.x - b.x := rfl

theorem Pos2.sub_y (a b : Pos2) : (a - b).y = a.y - b.y := rfl

/-! Example grids used for concrete evaluations. -/

/-- The spec's walk example: one row holding node, empty, empty, node. -/
def walkRowGrid : ASTGrid :=
  ⟨[[some ⟨"a", Option.none, []⟩, Option.none, Option.none, some ⟨"b", Option.none, []⟩]]⟩

/-- A two-by-two grid with nodes in the top-left and bottom-right cells. -/
def cornerGrid : ASTGrid :=
  ⟨[[some ⟨"a", Option.none, []⟩, Option.none],
    [Option.none, some ⟨"b", Option.none, []⟩]]⟩

/-- Like cornerGrid but with the top-right cell occupied as well. -/
def blockedCornerGrid : ASTGrid :=
  ⟨[[some ⟨"a", Option.none, []⟩, some ⟨"c", Option.none, []⟩],
    [Option.none, some ⟨"b", Option.none, []⟩]]⟩

/-- C1: the spec states that the raw destination Itself resolves to the
origin position unchanged, but normalize_destination (parts/grid.rs)
matches only the Relative and Label variants: for every grid, origin and
label table the function defines no result at all for Itself, so the
resolution can neither succeed nor report an error for that descriptor. -/
theorem normalize_itself_undefined (g : Grid) (origin : IndexPos)
    (labels : List (Identifier × IndexPos)) :
    g.normalizeDestination origin Destination.itself labels = Option.none := rfl

/-- C2: the spec expects a connection attribute list with a single
arrowheads attribute to resolve successfully, carrying the arrowhead
style; but ConnectionAttributes (parts/flou.rs) has no arrowheads field
and its TryFrom sends every Arrowheads attribute to the duplicate set, so
one lone arrowheads attribute is rejected as the duplicate set containing
exactly "arrowheads". -/
theorem arrowheads_attribute_rejected :
    (∀ a, ConnectionAttributes.tryFrom [ConnectionAttribute.arrowheads a] =
      .error ["arrowheads"]) ∧
    ConnectionAttributes.tryFrom [ConnectionAttribute.arrowheads ArrowheadType.stop] =
      .error ["arrowheads"] := by
  constructor
  · intro a
    rfl
  · rfl

/-- C3 counterexample: on cornerGrid, connecting the east side of cell
(0, 0) with the north side of cell (1, 1), the two L-corner candidates
score Zero (candidate (3, 1)) and Two (candidate (2, 2)) free axes, yet
get_best_corner selects the Zero-scoring candidate (3, 1) because its two
legs pass the walk-based test: the lower-scoring candidate is preferred
over the higher-scoring one, refuting the claim that the higher score
always wins and that the walk test only breaks ties. -/
theorem corner_choice_counterexample :
    Pos2.straightLine (PosSide.padded ⟨⟨0, 0⟩, .east⟩) (PosSide.padded ⟨⟨1, 1⟩, .north⟩) =
      Option.none ∧
    FreeAxisCount.fromPos ⟨3, 1⟩ = .zero ∧
    FreeAxisCount.fromPos ⟨2, 2⟩ = .two ∧
    (⟨2, 2⟩ : Pos2) =
      ⟨(PosSide.padded ⟨⟨0, 0⟩, .east⟩).x, (PosSide.padded ⟨⟨1, 1⟩, .north⟩).y⟩ ∧
    getBestCorner (gridOfAst cornerGrid) ⟨⟨0, 0⟩, .east⟩ ⟨⟨1, 1⟩, .north⟩ =
      some (⟨3, 1⟩, .two) := by
  refine ⟨rfl, rfl, rfl, rfl, by decide⟩

/-- C4 counterexample: on blockedCornerGrid the routed polyline from the
east side of cell (0, 0) to the north side of cell (1, 1) passes through
waypoint (3, 1), which is the padded position of the occupied cell (1, 0)
and is neither of the two endpoint cells. -/
theorem path_through_node_counterexample :
    getPath (gridOfAst blockedCornerGrid) (⟨0, 0⟩, .east) (⟨1, 1⟩, .north) =
      some [⟨1, 1⟩, ⟨2, 1⟩, ⟨3, 1⟩, ⟨3, 2⟩, ⟨3, 3⟩] ∧
    alookup (gridOfAst blockedCornerGrid).positionToId ⟨3, 1⟩ = some "c" ∧
    (⟨3, 1⟩ : Pos2) = paddedOfIndex ⟨1, 0⟩ ∧
    (⟨3, 1⟩ : Pos2) ≠ paddedOfIndex ⟨0, 0⟩ ∧
    (⟨3, 1⟩ : Pos2) ≠ paddedOfIndex ⟨1, 1⟩ := by
  refine ⟨by decide, by decide, by decide, by decide, by decide⟩

/-- C10: the router is a pure function of (grid, from, to): two calls with
identical arguments return identical waypoint lists. -/
theorem router_deterministic (g g' : Grid) (f f' t t' : IndexPos × Direction)
    (hg : g = g') (hf : f = f') (ht : t = t') :
    getPath g f t = getPath g' f' t' := by
  subst hg
  subst hf
  subst ht
  rfl

/-- Witness for router_deterministic at a concrete grid and connection. -/
theorem router_deterministic_witness :
    getPath (gridOfAst cornerGrid) (⟨0, 0⟩, .east) (⟨1, 1⟩, .north) =
      getPath (gridOfAst cornerGrid) (⟨0, 0⟩, .east) (⟨1, 1⟩, .north) :=
  router_deterministic _ _ _ _ _ _ rfl rfl rfl

deriving instance DecidableEq for Except

/-- C8: label validation is staged strictly before destination resolution
in TryFrom&lt;Document&gt; for Flou: whenever every earlier phase (definition
uniqueness and the four attribute phases) succeeds and the label table is
invalid, the pipeline returns exactly the DuplicateLabels error produced
by try_into_label_map — destination resolution never runs, so an
InvalidDestination error is impossible for such a document. -/
theorem labels_precede_destinations (d : Document)
    (e : List (Identifier × List IndexPos))
    (hphases : attributePhasesOk d = true)
    (hlab : tryIntoLabelMap d.grid = .error e) :
    flouTryFrom d = some (.error (.duplicateLabels e)) := by
  unfold attributePhasesOk at hphases
  split at hphases
  · simp at hphases
  · rename_i defs h1
    split at hphases
    · simp at hphases
    · rename_i da dc h2
      split at hphases
      · simp at hphases
      · rename_i dcc h3
        split at hphases
        · simp at hphases
        · rename_i ga gc h4
          split at hphases
          · simp at hphases
          · rename_i gcc h5
            simp only [flouTryFrom, h1, h2, h3, h4, h5, hlab]

/-- A document whose only defects are two duplicate labels and an
unresolvable relative destination. -/
def duplicateLabelDoc : Document :=
  ⟨⟨[[some ⟨"block", some "foo",
        [NodeAttribute.connect [⟨Destination.relative .north, (.north, .north), []⟩]]⟩],
     [some ⟨"block", some "foo", []⟩]]⟩, []⟩

/-- Witness for labels_precede_destinations: duplicateLabelDoc has both a
duplicate label and an invalid destination, and the pipeline reports only
DuplicateLabels. -/
theorem labels_precede_destinations_witness :
    flouTryFrom duplicateLabelDoc =
      some (.error (.duplicateLabels [("foo", [⟨0, 0⟩, ⟨0, 1⟩])])) :=
  labels_precede_destinations duplicateLabelDoc _ (by decide) (by decide)

/-! Association-list lemmas shared by the merge and label proofs. -/

theorem alookup_append {K V : Type} [DecidableEq K] (l1 l2 : List (K × V)) (k : K) :
    alookup (l1 ++ l2) k =
      match alookup l1 k with
      | some v => some v
      | Option.none => alookup l2 k := by
  induction l1 with
  | nil => simp [alookup]
  | cons hd tl ih =>
    obtain ⟨k0, v0⟩ := hd
    by_cases h : k0 = k
    · simp [alookup, h]
    · simp [alookup, h, ih]

theorem alookup_aremove_self {K V : Type} [DecidableEq K] (l : List (K × V)) (k : K) :
    alookup (aremove l k) k = Option.none := by
  induction l with
  | nil => rfl
  | cons hd tl ih =>
    obtain ⟨k0, v0⟩ := hd
    by_cases h : k0 = k
    · simpa [aremove, h] using ih
    · simpa [aremove, h, alookup] using ih

theorem alookup_aremove_ne {K V : Type} [DecidableEq K] (l : List (K × V)) (k k' : K)
    (h : k' ≠ k) : alookup (aremove l k) k' = alookup l k' := by
  induction l with
  | nil => rfl
  | cons hd tl ih =>
    obtain ⟨k0, v0⟩ := hd
    by_cases h0 : k0 = k
    · simp [aremove, h0, alookup, Ne.symm h, ih]
    · simp [aremove, h0, alookup, ih]

theorem alookup_overwriteMap_not_mem {K V : Type} [DecidableEq K] (f : V → V → V) :
    ∀ (new old : List (K × V)) (k : K), k ∉ new.map Prod.fst →
      alookup (overwriteMap f old new) k = alookup old k := by
  intro new
  induction new with
  | nil => intro old k h; rfl
  | cons hd tl ih =>
    intro old k h
    obtain ⟨k0, v0⟩ := hd
    simp only [List.map_cons, List.mem_cons] at h
    push_neg at h
    have hne : k ≠ k0 := h.1
    rw [show overwriteMap f old ((k0, v0) :: tl) =
          overwriteMap f (aremove old k0 ++
            [(k0, match alookup old k0 with
                  | some oldVal => f oldVal v0
                  | Option.none => v0)]) tl from rfl]
    rw [ih _ k h.2, alookup_append, alookup_aremove_ne _ _ _ hne]
    cases halt : alookup old k <;> simp [alookup, Ne.symm hne]

theorem alookup_overwriteMap_some {K V : Type} [DecidableEq K] (f : V → V → V) :
    ∀ (new old : List (K × V)) (k : K) (v : V), (new.map Prod.fst).Nodup →
      alookup new k = some v →
      alookup (overwriteMap f old new) k =
        some (match alookup old k with
              | some o => f o v
              | Option.none => v) := by
  intro new
  induction new with
  | nil => intro old k v hnd hv; simp [alookup] at hv
  | cons hd tl ih =>
    intro old k v hnd hv
    obtain ⟨k0, v0⟩ := hd
    simp only [List.map_cons, List.nodup_cons] at hnd
    by_cases h : k0 = k
    · subst h
      have hv0 : v0 = v := by simpa [alookup] using hv
      subst hv0
      rw [show overwriteMap f old ((k0, v0) :: tl) =
            overwriteMap f (aremove old k0 ++
              [(k0, match alookup old k0 with
                    | some oldVal => f oldVal v0
                    | Option.none => v0)]) tl from rfl]
      rw [alookup_overwriteMap_not_mem f tl _ k0 hnd.1, alookup_append,
        alookup_aremove_self]
      simp [alookup]
    · have hv' : alookup tl k = some v := by simpa [alookup, h] using hv
      rw [show overwriteMap f old ((k0, v0) :: tl) =
            overwriteMap f (aremove old k0 ++
              [(k0, match alookup old k0 with
                    | some oldVal => f oldVal v0
                    | Option.none => v0)]) tl from rfl]
      rw [ih _ k v hnd.2 hv', alookup_append,
        alookup_aremove_ne _ _ _ (fun he => h he.symm)]
      cases halt : alookup old k <;> simp [alookup, h]

/-- C6: merge precedence is field-level for node attributes and wholesale
for connection lists: at any position carrying both a (fanned-out)
definition record and a grid-occurrence record, the merged NodeAttributes
takes each of text/class/shape from the grid occurrence when that record
sets the field and from the definition otherwise, and the merged
connection list is exactly the grid occurrence's list. -/
theorem merge_overrides (defA gridA : List (IndexPos × NodeAttributes))
    (defC gridC : List (IndexPos × List UnresolvedConnection))
    (p : IndexPos) (da ga : NodeAttributes) (dl gl : List UnresolvedConnection)
    (hndA : (gridA.map Prod.fst).Nodup) (hndC : (gridC.map Prod.fst).Nodup)
    (hda : alookup defA p = some da) (hga : alookup gridA p = some ga)
    (hdl : alookup defC p = some dl) (hgl : alookup gridC p = some gl) :
    alookup (overwriteMap overwriteNodeAttributes defA gridA) p =
      some ⟨if ga.text.isSome then ga.text else da.text,
            if ga.cls.isSome then ga.cls else da.cls,
            if ga.shape.isSome then ga.shape else da.shape⟩ ∧
    alookup (overwriteMap (overwriteList (V := UnresolvedConnection)) defC gridC) p =
      some gl := by
  constructor
  · rw [alookup_overwriteMap_some _ _ _ _ _ hndA hga, hda]
    congr 1
    obtain ⟨t, c, s⟩ := ga
    cases t <;> cases c <;> cases s <;> simp [overwriteNodeAttributes, Option.or]
  · rw [alookup_overwriteMap_some _ _ _ _ _ hndC hgl, hdl]
    rfl

/-- Witness for merge_overrides at the spec's own example: the definition
sets text "A", the grid occurrence sets only class "B", and the merged
record is text "A", class "B"; a grid-occurrence connect list wholly
replaces the definition's list. -/
theorem merge_overrides_witness :
    alookup (overwriteMap overwriteNodeAttributes
        [((⟨0, 0⟩ : Pos2), (⟨some "A", Option.none, Option.none⟩ : NodeAttributes))]
        [((⟨0, 0⟩ : Pos2), (⟨Option.none, some "B", Option.none⟩ : NodeAttributes))])
      ⟨0, 0⟩ = some ⟨some "A", some "B", Option.none⟩ ∧
    alookup (overwriteMap (overwriteList (V := UnresolvedConnection))
        [((⟨0, 0⟩ : Pos2), [(⟨Destination.itself, (.north, .north), {}⟩ : UnresolvedConnection)])]
        [((⟨0, 0⟩ : Pos2), [(⟨Destination.relative .south, (.south, .south), {}⟩ : UnresolvedConnection)])])
      ⟨0, 0⟩ = some [⟨Destination.relative .south, (.south, .south), {}⟩] := by
  have h := merge_overrides
    [((⟨0, 0⟩ : Pos2), (⟨some "A", Option.none, Option.none⟩ : NodeAttributes))]
    [((⟨0, 0⟩ : Pos2), (⟨Option.none, some "B", Option.none⟩ : NodeAttributes))]
    [((⟨0, 0⟩ : Pos2), [(⟨Destination.itself, (.north, .north), {}⟩ : UnresolvedConnection)])]
    [((⟨0, 0⟩ : Pos2), [(⟨Destination.relative .south, (.south, .south), {}⟩ : UnresolvedConnection)])]
    ⟨0, 0⟩ _ _ _ _ (by decide) (by decide) rfl rfl rfl rfl
  simpa using h

/-! Lemmas about label collection (towards the label-uniqueness claim). -/

theorem mem_setInsert {V : Type} [DecidableEq V] (l : List V) (v w : V) :
    w ∈ setInsert l v ↔ w ∈ l ∨ w = v := by
  unfold setInsert
  by_cases h : v ∈ l
  · simp only [h, if_true]
    constructor
    · exact fun hw => Or.inl hw
    · rintro (hw | rfl)
      · exact hw
      · exact h
  · simp [h]

theorem setInsert_ne_nil {V : Type} [DecidableEq V] (l : List V) (v : V) :
    setInsert l v ≠ [] := by
  unfold setInsert
  by_cases h : v ∈ l
  · simp only [h, if_true]
    exact List.ne_nil_of_mem h
  · simp [h]

theorem setInsert_nodup {V : Type} [DecidableEq V] (l : List V) (v : V)
    (h : l.Nodup) : (setInsert l v).Nodup := by
  unfold setInsert
  by_cases hm : v ∈ l
  · simpa [hm] using h
  · simp [hm, List.nodup_append, h]

theorem alookup_map_replace_ne {K V : Type} [DecidableEq K]
    (l : List (K × V)) (k : K) (v : V) (k' : K) (h : k' ≠ k) :
    alookup (l.map (fun kv => if kv.1 = k then (k, v) else kv)) k' = alookup l k' := by
  induction l with
  | nil => rfl
  | cons hd tl ih =>
    obtain ⟨k0, v0⟩ := hd
    simp only [List.map_cons]
    by_cases h0 : k0 = k
    · rw [if_pos h0]
      simp only [alookup]
      rw [if_neg (Ne.symm h), ih, if_neg (fun hh => (Ne.symm h) (h0 ▸ hh))]
    · rw [if_neg h0]
      simp only [alookup]
      rw [ih]

theorem alookup_map_replace_self {K V : Type} [DecidableEq K]
    (l : List (K × V)) (k : K) (v : V) (hp : (alookup l k).isSome) :
    alookup (l.map (fun kv => if kv.1 = k then (k, v) else kv)) k = some v := by
  induction l with
  | nil => simp [alookup] at hp
  | cons hd tl ih =>
    obtain ⟨k0, v0⟩ := hd
    simp only [List.map_cons]
    by_cases h0 : k0 = k
    · rw [if_pos h0]
      simp [alookup]
    · rw [if_neg h0]
      have hp' : (alookup tl k).isSome := by simpa [alookup, h0] using hp
      simp only [alookup]
      rw [if_neg h0, ih hp']

theorem alookup_append_right_of_none {K V : Type} [DecidableEq K]
    (l : List (K × V)) (k : K) (v : V) (hnone : alookup l k = Option.none) :
    alookup (l ++ [(k, v)]) k = some v := by
  rw [alookup_append, hnone]
  simp [alookup]

theorem alookup_append_left {K V : Type} [DecidableEq K]
    (l : List (K × V)) (k k' : K) (v : V) (h : k' ≠ k) :
    alookup (l ++ [(k, v)]) k' = alookup l k' := by
  rw [alookup_append]
  cases hc : alookup l k' <;> simp [alookup, Ne.symm h]

theorem alookup_ainsert {K V : Type} [DecidableEq K] (l : List (K × V)) (k : K)
    (v : V) (k' : K) :
    alookup (ainsert l k v) k' = if k' = k then some v else alookup l k' := by
  unfold ainsert
  by_cases hp : (alookup l k).isSome
  · rw [if_pos hp]
    by_cases h1 : k' = k
    · subst h1
      rw [if_pos rfl]
      exact alookup_map_replace_self l k' v hp
    · rw [if_neg h1]
      exact alookup_map_replace_ne l k v k' h1
  · rw [if_neg hp]
    have hnone : alookup l k = Option.none := by
      cases hc : alookup l k
      · rfl
      · simp [hc] at hp
    by_cases h1 : k' = k
    · subst h1
      rw [if_pos rfl]
      exact alookup_append_right_of_none l k' v hnone
    · rw [if_neg h1]
      exact alookup_append_left l k k' v h1

/-- Positions of the nodes in a node list that carry the given label. -/
def nodesLabelOccs (ns : List (IndexPos × Node)) (l : Identifier) : List IndexPos :=
  ns.filterMap (fun pn => if pn.2.label = some l then some pn.1 else Option.none)

/-- Positions of the grid cells carrying the given label, in row-major
order. -/
def labelOccurrences (g : ASTGrid) (l : Identifier) : List IndexPos :=
  nodesLabelOccs g.nodes l

theorem labelPositions_fold (ns : List (IndexPos × Node)) :
    ∀ (acc : List (Identifier × List IndexPos)),
      (∀ l s, alookup acc l = some s → s ≠ [] ∧ s.Nodup) →
      ∀ l,
        (match alookup (ns.foldl labelStep acc) l with
         | some s => s ≠ [] ∧ s.Nodup ∧
             ∀ p, (p ∈ s ↔ (∃ s0, alookup acc l = some s0 ∧ p ∈ s0) ∨ p ∈ nodesLabelOccs ns l)
         | Option.none => alookup acc l = Option.none ∧ nodesLabelOccs ns l = []) := by
  induction ns with
  | nil =>
    intro acc hinv l
    simp only [List.foldl_nil, nodesLabelOccs, List.filterMap_nil]
    cases hc : alookup acc l with
    | none => exact ⟨rfl, trivial⟩
    | some s =>
      obtain ⟨hne, hnd⟩ := hinv l s hc
      refine ⟨hne, hnd, fun p => ?_⟩
      constructor
      · intro hp
        exact Or.inl ⟨s, rfl, hp⟩
      · rintro (⟨s0, hs0, hp⟩ | hp)
        · cases hs0
          exact hp
        · simp at hp
  | cons pn rest ih =>
    intro acc hinv l
    rw [List.foldl_cons]
    have hocc : nodesLabelOccs (pn :: rest) l =
        (if pn.2.label = some l then pn.1 :: nodesLabelOccs rest l else nodesLabelOccs rest l) := by
      unfold nodesLabelOccs
      rw [List.filterMap_cons]
      by_cases hl : pn.2.label = some l <;> simp [hl]
    cases hlab : pn.2.label with
    | none =>
      have hstep : labelStep acc pn = acc := by simp only [labelStep, hlab]
      rw [hstep]
      have := ih acc hinv l
      rw [hocc]
      have hne : ¬(pn.2.label = some l) := by rw [hlab]; simp
      rw [if_neg hne]
      exact this
    | some l' =>
      cases hacc : alookup acc l' with
      | some s0 =>
        have hstep : labelStep acc pn = ainsert acc l' (setInsert s0 pn.1) := by
          simp only [labelStep, hlab, hacc]
        rw [hstep]
        have hinv' : ∀ l s, alookup (ainsert acc l' (setInsert s0 pn.1)) l = some s →
            s ≠ [] ∧ s.Nodup := by
          intro lx sx hx
          rw [alookup_ainsert] at hx
          by_cases hxe : lx = l'
          · rw [if_pos hxe] at hx
            cases hx
            exact ⟨setInsert_ne_nil _ _, setInsert_nodup _ _ (hinv l' s0 hacc).2⟩
          · rw [if_neg hxe] at hx
            exact hinv lx sx hx
        have := ih (ainsert acc l' (setInsert s0 pn.1)) hinv' l
        rw [hocc]
        by_cases hll : l = l'
        · subst hll
          have hlkup : alookup (ainsert acc l (setInsert s0 pn.1)) l =
              some (setInsert s0 pn.1) := by rw [alookup_ainsert]; simp
          have hcond : pn.2.label = some l := hlab
          rw [if_pos hcond]
          cases hc : alookup (rest.foldl labelStep (ainsert acc l (setInsert s0 pn.1))) l with
          | none =>
            rw [hc] at this
            rw [this.1] at hlkup
            cases hlkup
          | some s =>
            rw [hc] at this
            obtain ⟨hne, hnd, hmem⟩ := this
            refine ⟨hne, hnd, fun p => ?_⟩
            rw [hmem p]
            constructor
            · rintro (⟨s1, hs1, hp⟩ | hp)
              · rw [hlkup] at hs1
                cases hs1
                rw [mem_setInsert] at hp
                rcases hp with hp | rfl
                · exact Or.inl ⟨s0, hacc, hp⟩
                · exact Or.inr (List.mem_cons_self _ _)
              · exact Or.inr (List.mem_cons_of_mem _ hp)
            · rintro (⟨s1, hs1, hp⟩ | hp)
              · rw [hacc] at hs1
                cases hs1
                exact Or.inl ⟨setInsert s0 pn.1, hlkup, (mem_setInsert _ _ _).2 (Or.inl hp)⟩
              · rcases List.mem_cons.1 hp with rfl | hp
                · exact Or.inl ⟨_, hlkup, (mem_setInsert _ _ _).2 (Or.inr rfl)⟩
                · exact Or.inr hp
        · have hlkup : alookup (ainsert acc l' (setInsert s0 pn.1)) l = alookup acc l := by
            rw [alookup_ainsert, if_neg hll]
          have hcond : ¬(pn.2.label = some l) := by
            rw [hlab]
            intro hx
            cases hx
            exact hll rfl
          rw [if_neg hcond]
          cases hc : alookup (rest.foldl labelStep (ainsert acc l' (setInsert s0 pn.1))) l with
          | none =>
            rw [hc] at this
            exact ⟨hlkup ▸ this.1, this.2⟩
          | some s =>
            rw [hc] at this
            obtain ⟨hne, hnd, hmem⟩ := this
            refine ⟨hne, hnd, fun p => ?_⟩
            rw [hmem p, hlkup]
      | none =>
        have hstep : labelStep acc pn = acc ++ [(l', [pn.1])] := by
          simp only [labelStep, hlab, hacc]
        rw [hstep]
        have hinv' : ∀ l s, alookup (acc ++ [(l', [pn.1])]) l = some s →
            s ≠ [] ∧ s.Nodup := by
          intro lx sx hx
          by_cases hxe : lx = l'
          · subst hxe
            rw [alookup_append_right_of_none acc lx [pn.1] hacc] at hx
            cases hx
            exact ⟨by simp, by simp⟩
          · rw [alookup_append_left acc l' lx [pn.1] hxe] at hx
            exact hinv lx sx hx
        have := ih (acc ++ [(l', [pn.1])]) hinv' l
        rw [hocc]
        by_cases hll : l = l'
        · subst hll
          have hlkup : alookup (acc ++ [(l, [pn.1])]) l = some [pn.1] :=
            alookup_append_right_of_none acc l [pn.1] hacc
          have hcond : pn.2.label = some l := hlab
          rw [if_pos hcond]
          cases hc : alookup (rest.foldl labelStep (acc ++ [(l, [pn.1])])) l with
          | none =>
            rw [hc] at this
            rw [this.1] at hlkup
            cases hlkup
          | some s =>
            rw [hc] at this
            obtain ⟨hne, hnd, hmem⟩ := this
            refine ⟨hne, hnd, fun p => ?_⟩
            rw [hmem p]
            constructor
            · rintro (⟨s1, hs1, hp⟩ | hp)
              · rw [hlkup] at hs1
                cases hs1
                simp at hp
                exact Or.inr (hp ▸ List.mem_cons_self _ _)
              · exact Or.inr (List.mem_cons_of_mem _ hp)
            · rintro (⟨s1, hs1, hp⟩ | hp)
              · rw [hacc] at hs1
                cases hs1
              · rcases List.mem_cons.1 hp with rfl | hp
                · exact Or.inl ⟨_, hlkup, by simp⟩
                · exact Or.inr hp
        · have hlkup : alookup (acc ++ [(l', [pn.1])]) l = alookup acc l :=
            alookup_append_left acc l' l [pn.1] hll
          have hcond : ¬(pn.2.label = some l) := by
            rw [hlab]
            intro hx
            cases hx
            exact hll rfl
          rw [if_neg hcond]
          cases hc : alookup (rest.foldl labelStep (acc ++ [(l', [pn.1])])) l with
          | none =>
            rw [hc] at this
            exact ⟨hlkup ▸ this.1, this.2⟩
          | some s =>
            rw [hc] at this
            obtain ⟨hne, hnd, hmem⟩ := this
            refine ⟨hne, hnd, fun p => ?_⟩
            rw [hmem p, hlkup]

/-- Summary of labelPositions: a label's entry, when present, is a
nonempty duplicate-free list with exactly the label's occurrence
positions; absence means the label never occurs. -/
theorem labelPositions_spec (g : ASTGrid) (l : Identifier) :
    (match alookup (labelPositions g) l with
     | some s => s ≠ [] ∧ s.Nodup ∧ ∀ p, (p ∈ s ↔ p ∈ labelOccurrences g l)
     | Option.none => labelOccurrences g l = []) := by
  have := labelPositions_fold g.nodes [] (by intro l s h; simp [alookup] at h) l
  unfold labelPositions labelOccurrences
  cases hc : alookup (g.nodes.foldl labelStep []) l with
  | none =>
    rw [hc] at this
    exact this.2
  | some s =>
    rw [hc] at this
    obtain ⟨hne, hnd, hmem⟩ := this
    refine ⟨hne, hnd, fun p => ?_⟩
    rw [hmem p]
    simp [alookup]

theorem alookup_none_iff {K V : Type} [DecidableEq K] (l : List (K × V)) (k : K) :
    alookup l k = Option.none ↔ k ∉ l.map Prod.fst := by
  induction l with
  | nil => simp [alookup]
  | cons hd tl ih =>
    obtain ⟨k0, v0⟩ := hd
    by_cases h0 : k0 = k
    · simp [alookup, h0]
    · simp [alookup, h0, ih, Ne.symm h0]

theorem alookup_some_mem {K V : Type} [DecidableEq K] (l : List (K × V)) (k : K)
    (v : V) (h : alookup l k = some v) : (k, v) ∈ l := by
  induction l with
  | nil => simp [alookup] at h
  | cons hd tl ih =>
    obtain ⟨k0, v0⟩ := hd
    by_cases h0 : k0 = k
    · subst h0
      rw [show alookup ((k0, v0) :: tl) k0 = some v0 from by simp [alookup]] at h
      cases h
      exact List.mem_cons_self _ _
    · rw [show alookup ((k0, v0) :: tl) k = alookup tl k from by simp [alookup, h0]] at h
      exact List.mem_cons_of_mem _ (ih h)

theorem keys_map_replace {K V : Type} [DecidableEq K] (l : List (K × V)) (k : K) (v : V) :
    (l.map (fun kv => if kv.1 = k then (k, v) else kv)).map Prod.fst = l.map Prod.fst := by
  induction l with
  | nil => rfl
  | cons hd tl ih =>
    obtain ⟨k0, v0⟩ := hd
    simp only [List.map_cons]
    by_cases h0 : k0 = k
    · rw [if_pos h0]
      simp [h0, ih]
    · rw [if_neg h0]
      simp [ih]

theorem keys_ainsert_present {K V : Type} [DecidableEq K] (l : List (K × V)) (k : K)
    (v : V) (hp : (alookup l k).isSome) :
    (ainsert l k v).map Prod.fst = l.map Prod.fst := by
  unfold ainsert
  rw [if_pos hp]
  exact keys_map_replace l k v

theorem labelPositions_fold_keys_nodup (ns : List (IndexPos × Node)) :
    ∀ acc, ((acc.map Prod.fst).Nodup) →
      (((ns.foldl labelStep acc).map Prod.fst)).Nodup := by
  induction ns with
  | nil => intro acc h; simpa using h
  | cons pn rest ih =>
    intro acc hacc
    rw [List.foldl_cons]
    cases hlab : pn.2.label with
    | none =>
      rw [show labelStep acc pn = acc from by simp only [labelStep, hlab]]
      exact ih acc hacc
    | some l' =>
      cases hl : alookup acc l' with
      | some s0 =>
        rw [show labelStep acc pn = ainsert acc l' (setInsert s0 pn.1) from by
          simp only [labelStep, hlab, hl]]
        apply ih
        rw [keys_ainsert_present acc l' _ (by simp [hl])]
        exact hacc
      | none =>
        rw [show labelStep acc pn = acc ++ [(l', [pn.1])] from by
          simp only [labelStep, hlab, hl]]
        apply ih
        have hnm : l' ∉ acc.map Prod.fst := (alookup_none_iff acc l').1 hl
        simp [List.nodup_append, hacc, hnm]

theorem labelPositions_keys_nodup (g : ASTGrid) :
    ((labelPositions g).map Prod.fst).Nodup :=
  labelPositions_fold_keys_nodup g.nodes [] (by simp)

theorem alookup_uniqueLabelEntries_notmem (m : List (Identifier × List IndexPos))
    (l : Identifier) (h : l ∉ m.map Prod.fst) :
    alookup (uniqueLabelEntries m) l = Option.none := by
  induction m with
  | nil => rfl
  | cons hd rest ih =>
    obtain ⟨l0, s0⟩ := hd
    simp only [List.map_cons, List.mem_cons] at h
    push_neg at h
    have hrest := ih h.2
    rcases s0 with _ | ⟨p, _ | ⟨q, ps⟩⟩
    · simpa [uniqueLabelEntries, List.filterMap_cons] using hrest
    · simpa [uniqueLabelEntries, List.filterMap_cons, alookup, Ne.symm h.1] using hrest
    · simpa [uniqueLabelEntries, List.filterMap_cons] using hrest

theorem alookup_uniqueLabelEntries (m : List (Identifier × List IndexPos))
    (hnd : (m.map Prod.fst).Nodup) (l : Identifier) :
    alookup (uniqueLabelEntries m) l =
      (match alookup m l with
       | some s => (match s with | [p] => some p | _ => Option.none)
       | Option.none => Option.none) := by
  induction m with
  | nil => rfl
  | cons hd rest ih =>
    obtain ⟨l0, s0⟩ := hd
    simp only [List.map_cons, List.nodup_cons] at hnd
    by_cases h0 : l0 = l
    · subst h0
      rw [show alookup ((l0, s0) :: rest) l0 = some s0 from by simp [alookup]]
      rcases s0 with _ | ⟨p, _ | ⟨q, ps⟩⟩
      · simpa [uniqueLabelEntries, List.filterMap_cons] using
          alookup_uniqueLabelEntries_notmem rest l0 hnd.1
      · simp [uniqueLabelEntries, List.filterMap_cons, alookup]
      · simpa [uniqueLabelEntries, List.filterMap_cons] using
          alookup_uniqueLabelEntries_notmem rest l0 hnd.1
    · rw [show alookup ((l0, s0) :: rest) l = alookup rest l from by simp [alookup, h0]]
      rcases s0 with _ | ⟨p, _ | ⟨q, ps⟩⟩
      · simpa [uniqueLabelEntries, List.filterMap_cons] using ih hnd.2
      · simpa [uniqueLabelEntries, List.filterMap_cons, alookup, h0] using ih hnd.2
      · simpa [uniqueLabelEntries, List.filterMap_cons] using ih hnd.2

theorem alookup_duplicateLabelEntries_notmem (m : List (Identifier × List IndexPos))
    (l : Identifier) (h : l ∉ m.map Prod.fst) :
    alookup (duplicateLabelEntries m) l = Option.none := by
  induction m with
  | nil => rfl
  | cons hd rest ih =>
    obtain ⟨l0, s0⟩ := hd
    simp only [List.map_cons, List.mem_cons] at h
    push_neg at h
    have hrest := ih h.2
    by_cases hs : s0.length = 1
    · simpa [duplicateLabelEntries, List.filter_cons, hs] using hrest
    · simpa [duplicateLabelEntries, List.filter_cons, hs, alookup, Ne.symm h.1] using hrest

theorem alookup_duplicateLabelEntries (m : List (Identifier × List IndexPos))
    (hnd : (m.map Prod.fst).Nodup) (l : Identifier) :
    alookup (duplicateLabelEntries m) l =
      (match alookup m l with
       | some s => if s.length = 1 then Option.none else some s
       | Option.none => Option.none) := by
  induction m with
  | nil => rfl
  | cons hd rest ih =>
    obtain ⟨l0, s0⟩ := hd
    simp only [List.map_cons, List.nodup_cons] at hnd
    by_cases h0 : l0 = l
    · subst h0
      rw [show alookup ((l0, s0) :: rest) l0 = some s0 from by simp [alookup]]
      by_cases hs : s0.length = 1
      · simpa [duplicateLabelEntries, List.filter_cons, hs] using
          alookup_duplicateLabelEntries_notmem rest l0 hnd.1
      · simp [duplicateLabelEntries, List.filter_cons, hs, alookup]
    · rw [show alookup ((l0, s0) :: rest) l = alookup rest l from by simp [alookup, h0]]
      by_cases hs : s0.length = 1
      · simpa [duplicateLabelEntries, List.filter_cons, hs] using ih hnd.2
      · simpa [duplicateLabelEntries, List.filter_cons, hs, alookup, h0] using ih hnd.2

theorem uniqueLabelEntries_length (m : List (Identifier × List IndexPos)) :
    (uniqueLabelEntries m).length ≤ m.length ∧
    ((uniqueLabelEntries m).length < m.length ↔ ∃ lp, lp ∈ m ∧ lp.2.length ≠ 1) := by
  induction m with
  | nil => simp [uniqueLabelEntries]
  | cons hd rest ih =>
    obtain ⟨l0, s0⟩ := hd
    rcases s0 with _ | ⟨p, _ | ⟨q, ps⟩⟩
    · refine ⟨?_, ?_⟩
      · simpa [uniqueLabelEntries, List.filterMap_cons] using
          Nat.le_succ_of_le ih.1
      · simp only [uniqueLabelEntries, List.filterMap_cons]
        constructor
        · intro _
          exact ⟨(l0, []), List.mem_cons_self _ _, by simp⟩
        · intro _
          exact Nat.lt_succ_of_le ih.1
    · refine ⟨?_, ?_⟩
      · simpa [uniqueLabelEntries, List.filterMap_cons] using ih.1
      · simp only [uniqueLabelEntries, List.filterMap_cons]
        constructor
        · intro hlt
          have hlt' : (uniqueLabelEntries rest).length < rest.length := by
            simpa [uniqueLabelEntries] using Nat.lt_of_succ_lt_succ (by simpa using hlt)
          obtain ⟨lp, hmem, hlen⟩ := ih.2.1 hlt'
          exact ⟨lp, List.mem_cons_of_mem _ hmem, hlen⟩
        · rintro ⟨lp, hmem, hlen⟩
          rcases List.mem_cons.1 hmem with rfl | hmem
          · simp at hlen
          · have := ih.2.2 ⟨lp, hmem, hlen⟩
            simpa [uniqueLabelEntries] using Nat.succ_lt_succ this
    · refine ⟨?_, ?_⟩
      · simpa [uniqueLabelEntries, List.filterMap_cons] using
          Nat.le_succ_of_le ih.1
      · simp only [uniqueLabelEntries, List.filterMap_cons]
        constructor
        · intro _
          exact ⟨(l0, p :: q :: ps), List.mem_cons_self _ _, by simp⟩
        · intro _
          exact Nat.lt_succ_of_le ih.1

/-- C5: label table correctness. On success a label maps to a position in
the usable table iff that label occurs at exactly one grid position (and
then to that position); and as soon as some label occurs at two distinct
positions, try_into_label_map fails with exactly the multiply-occurring
labels, each mapped to all of its positions, so no such label reaches a
usable table. -/
theorem label_table_spec (g : ASTGrid) :
    (∀ t, tryIntoLabelMap g = .ok t → ∀ l p,
       (alookup t l = some p ↔
         (p ∈ labelOccurrences g l ∧ ∀ q ∈ labelOccurrences g l, q = p))) ∧
    (∀ l p q, p ∈ labelOccurrences g l → q ∈ labelOccurrences g l → p ≠ q →
       ∃ e, tryIntoLabelMap g = .error e ∧
         ∀ l', ((alookup e l').isSome ↔
                  ∃ p' q', p' ∈ labelOccurrences g l' ∧ q' ∈ labelOccurrences g l' ∧ p' ≠ q') ∧
                ∀ s, alookup e l' = some s →
                  ∀ r, (r ∈ s ↔ r ∈ labelOccurrences g l')) := by
  have hnd := labelPositions_keys_nodup g
  constructor
  · intro t hok l p
    have hu := alookup_uniqueLabelEntries (labelPositions g) hnd l
    have hspec := labelPositions_spec g l
    simp only [tryIntoLabelMap] at hok
    split at hok
    · cases hok
    · cases hok
      constructor
      · intro hsome
        rw [hu] at hsome
        cases hpos : alookup (labelPositions g) l with
        | none => rw [hpos] at hsome; cases hsome
        | some s =>
          rw [hpos] at hsome hspec
          rcases s with _ | ⟨a, _ | ⟨b, srest⟩⟩
          · cases hsome
          · have ha : a = p := by
              simpa using hsome
            subst ha
            obtain ⟨-, -, hmem⟩ := hspec
            refine ⟨(hmem a).1 (by simp), fun q hq => ?_⟩
            have := (hmem q).2 hq
            simpa using this
          · cases hsome
      · rintro ⟨hp, huniq⟩
        cases hpos : alookup (labelPositions g) l with
        | none =>
          rw [hpos] at hspec
          rw [hspec] at hp
          simp at hp
        | some s =>
          rw [hpos] at hspec
          obtain ⟨hne, hsnd, hmem⟩ := hspec
          have hs : s = [p] := by
            rcases s with _ | ⟨a, _ | ⟨b, srest⟩⟩
            · exact absurd rfl hne
            · have := huniq a ((hmem a).1 (by simp))
              rw [this]
            · have ha : a = p := huniq a ((hmem a).1 (by simp))
              have hb : b = p := huniq b ((hmem b).1 (by simp))
              rw [List.nodup_cons] at hsnd
              exact absurd (by rw [ha, hb]; simp : a ∈ b :: srest) hsnd.1
          rw [hu, hpos, hs]
  · intro l p q hp hq hpq
    have hspec := labelPositions_spec g l
    cases hpos : alookup (labelPositions g) l with
    | none =>
      rw [hpos] at hspec
      rw [hspec] at hp
      simp at hp
    | some s =>
      rw [hpos] at hspec
      obtain ⟨hne, hsnd, hmem⟩ := hspec
      have hlen : s.length ≠ 1 := by
        intro h1
        obtain ⟨a, ha⟩ := List.length_eq_one.1 h1
        subst ha
        have hpa : p = a := by simpa using (hmem p).2 hp
        have hqa : q = a := by simpa using (hmem q).2 hq
        exact hpq (hpa.trans hqa.symm)
      have hcond : (uniqueLabelEntries (labelPositions g)).length <
          (labelPositions g).length :=
        (uniqueLabelEntries_length (labelPositions g)).2.2
          ⟨(l, s), alookup_some_mem _ _ _ hpos, hlen⟩
      refine ⟨duplicateLabelEntries (labelPositions g), ?_, ?_⟩
      · simp only [tryIntoLabelMap]
        rw [if_pos hcond]
      · intro l'
        have hd := alookup_duplicateLabelEntries (labelPositions g) hnd l'
        have hspec' := labelPositions_spec g l'
        constructor
        · constructor
          · intro hsome
            cases hdup : alookup (duplicateLabelEntries (labelPositions g)) l' with
            | none => rw [hdup] at hsome; cases hsome
            | some s' =>
              rw [hdup] at hd
              cases hpos' : alookup (labelPositions g) l' with
              | none => rw [hpos'] at hd; cases hd
              | some s'' =>
                rw [hpos'] at hd hspec'
                have hd' : some s' =
                    (if s''.length = 1 then Option.none else some s'') := hd
                obtain ⟨hne'', hnd'', hmem''⟩ := hspec'
                by_cases hl1 : s''.length = 1
                · rw [if_pos hl1] at hd'; cases hd'
                · rcases s'' with _ | ⟨a, _ | ⟨b, srest⟩⟩
                  · exact absurd rfl hne''
                  · simp at hl1
                  · rw [List.nodup_cons] at hnd''
                    have hab : a ≠ b := fun he => hnd''.1 (he ▸ List.mem_cons_self _ _)
                    exact ⟨a, b, (hmem'' a).1 (by simp), (hmem'' b).1 (by simp), hab⟩
          · rintro ⟨p', q', hp', hq', hpq'⟩
            cases hpos' : alookup (labelPositions g) l' with
            | none =>
              rw [hpos'] at hspec'
              rw [hspec'] at hp'
              simp at hp'
            | some s'' =>
              rw [hpos'] at hd hspec'
              have hd' : alookup (duplicateLabelEntries (labelPositions g)) l' =
                  (if s''.length = 1 then Option.none else some s'') := hd
              obtain ⟨hne'', hnd'', hmem''⟩ := hspec'
              have hlen'' : s''.length ≠ 1 := by
                intro h1
                obtain ⟨a, ha⟩ := List.length_eq_one.1 h1
                subst ha
                have h1' : p' = a := by simpa using (hmem'' p').2 hp'
                have h2' : q' = a := by simpa using (hmem'' q').2 hq'
                exact hpq' (h1'.trans h2'.symm)
              rw [if_neg hlen''] at hd'
              simp [hd']
        · intro s' hs' r
          cases hpos' : alookup (labelPositions g) l' with
          | none => rw [hpos'] at hd; rw [hd] at hs'; cases hs'
          | some s'' =>
            rw [hpos'] at hd hspec'
            have hd' : alookup (duplicateLabelEntries (labelPositions g)) l' =
                (if s''.length = 1 then Option.none else some s'') := hd
            have hspec'' : s'' ≠ [] ∧ s''.Nodup ∧
                ∀ p, (p ∈ s'' ↔ p ∈ labelOccurrences g l') := hspec'
            by_cases hl1 : s''.length = 1
            · rw [if_pos hl1] at hd'; rw [hd'] at hs'; cases hs'
            · rw [if_neg hl1] at hd'
              rw [hd'] at hs'
              cases hs'
              exact (hspec''.2.2 r)

/-- Witness for label_table_spec: on duplicateLabelDoc's grid the label
table fails and the error names the label foo. -/
theorem label_table_spec_witness :
    ∃ e, tryIntoLabelMap duplicateLabelDoc.grid = .error e ∧
      (alookup e "foo").isSome := by
  obtain ⟨-, h2⟩ := label_table_spec duplicateLabelDoc.grid
  obtain ⟨e, he, hprops⟩ := h2 "foo" ⟨0, 0⟩ ⟨0, 1⟩ (by decide) (by decide) (by decide)
  exact ⟨e, he, (hprops "foo").1.2 ⟨⟨0, 0⟩, ⟨0, 1⟩, by decide, by decide, by decide⟩⟩

/-! Characterization of Grid::walk (towards the walk-semantics claim). -/

/-- Position reached after k steps of the given step vector. -/
def rayStep (start step : Pos2) (k : Nat) : Pos2 :=
  ⟨start.x + step.x * k, start.y + step.y * k⟩

/-- The walk can pass positions 1..k-1: all are in bounds and empty. -/
def continuesTo (g : Grid) (start step : Pos2) (k : Nat) : Prop :=
  ∀ j, 1 ≤ j → j < k → g.getId (rayStep start step j) = some Option.none

theorem Pos2.ext2 (a b : Pos2) (hx : a.x = b.x) (hy : a.y = b.y) : a = b := by
  cases a
  cases b
  cases hx
  cases hy
  rfl

theorem ray_one (start step : Pos2) : rayStep start step 1 = start + step := by
  apply Pos2.ext2 <;> simp [rayStep, Pos2.add_x, Pos2.add_y]

theorem ray_shift (start step : Pos2) (j : Nat) :
    rayStep (start + step) step j = rayStep start step (j + 1) := by
  apply Pos2.ext2 <;>
    (simp only [rayStep, Pos2.add_x, Pos2.add_y]; push_cast; ring)

theorem walkAux_some (g : Grid) (step : Pos2) :
    ∀ (fuel : Nat) (start q : Pos2), g.walkAux step start fuel = some q →
      ∃ k, 1 ≤ k ∧ k ≤ fuel ∧ continuesTo g start step k ∧
        (∃ id, g.getId (rayStep start step k) = some (some id)) ∧
        q = rayStep start step k := by
  intro fuel
  induction fuel with
  | zero => intro start q h; simp [Grid.walkAux] at h
  | succ n ih =>
    intro start q h
    rw [show g.walkAux step start (n + 1) =
        (match g.getId (start + step) with
         | Option.none => Option.none
         | some (some _) => some (start + step)
         | some Option.none => g.walkAux step (start + step) n) from rfl] at h
    cases hid : g.getId (start + step) with
    | none => rw [hid] at h; cases h
    | some o =>
      cases o with
      | some id =>
        rw [hid] at h
        cases h
        refine ⟨1, le_refl 1, by omega, ?_, ⟨id, ?_⟩, ?_⟩
        · intro j hj1 hj2; omega
        · rw [ray_one]; exact hid
        · rw [ray_one]
      | none =>
        rw [hid] at h
        obtain ⟨k, hk1, hkn, hcont, ⟨id, hhit⟩, hq⟩ := ih (start + step) q h
        refine ⟨k + 1, by omega, by omega, ?_, ⟨id, ?_⟩, ?_⟩
        · intro j hj1 hj2
          rcases Nat.lt_or_ge j 2 with hj | hj
          · have hj' : j = 1 := by omega
            subst hj'
            rw [ray_one]; exact hid
          · obtain ⟨j', rfl⟩ : ∃ j', j = j' + 1 := ⟨j - 1, by omega⟩
            rw [← ray_shift]
            exact hcont j' (by omega) (by omega)
        · rw [← ray_shift]; exact hhit
        · rw [hq, ← ray_shift]

theorem walkAux_none (g : Grid) (step : Pos2) :
    ∀ (fuel : Nat) (start : Pos2), g.walkAux step start fuel = Option.none →
      (∃ k, 1 ≤ k ∧ k ≤ fuel ∧ continuesTo g start step k ∧
        g.getId (rayStep start step k) = Option.none) ∨
      continuesTo g start step (fuel + 1) := by
  intro fuel
  induction fuel with
  | zero =>
    intro start h
    right
    intro j hj1 hj2
    omega
  | succ n ih =>
    intro start h
    rw [show g.walkAux step start (n + 1) =
        (match g.getId (start + step) with
         | Option.none => Option.none
         | some (some _) => some (start + step)
         | some Option.none => g.walkAux step (start + step) n) from rfl] at h
    cases hid : g.getId (start + step) with
    | none =>
      left
      refine ⟨1, le_refl 1, by omega, ?_, ?_⟩
      · intro j hj1 hj2; omega
      · rw [ray_one]; exact hid
    | some o =>
      cases o with
      | some id => rw [hid] at h; cases h
      | none =>
        rw [hid] at h
        rcases ih (start + step) h with ⟨k, hk1, hkn, hcont, hexit⟩ | hcont
        · left
          refine ⟨k + 1, by omega, by omega, ?_, ?_⟩
          · intro j hj1 hj2
            rcases Nat.lt_or_ge j 2 with hj | hj
            · have hj' : j = 1 := by omega
              subst hj'
              rw [ray_one]; exact hid
            · obtain ⟨j', rfl⟩ : ∃ j', j = j' + 1 := ⟨j - 1, by omega⟩
              rw [← ray_shift]
              exact hcont j' (by omega) (by omega)
          · rw [← ray_shift]; exact hexit
        · right
          intro j hj1 hj2
          rcases Nat.lt_or_ge j 2 with hj | hj
          · have hj' : j = 1 := by omega
            subst hj'
            rw [ray_one]; exact hid
          · obtain ⟨j', rfl⟩ : ∃ j', j = j' + 1 := ⟨j - 1, by omega⟩
            rw [← ray_shift]
            exact hcont j' (by omega) (by omega)

theorem stop_unique (g : Grid) (start step : Pos2) (k1 k2 : Nat)
    (h11 : 1 ≤ k1) (h12 : continuesTo g start step k1)
    (h13 : g.getId (rayStep start step k1) ≠ some Option.none)
    (h21 : 1 ≤ k2) (h22 : continuesTo g start step k2)
    (h23 : g.getId (rayStep start step k2) ≠ some Option.none) : k1 = k2 := by
  rcases Nat.lt_trichotomy k1 k2 with h | h | h
  · exact absurd (h22 k1 h11 h) h13
  · exact h
  · exact absurd (h12 k2 h21 h) h23

theorem getId_inBounds (g : Grid) (p : Pos2) (o : Option Identifier)
    (h : g.getId p = some o) :
    0 ≤ p.x ∧ p.x < g.size.x * 2 + 1 ∧ 0 ≤ p.y ∧ p.y < g.size.y * 2 + 1 := by
  unfold Grid.getId at h
  by_cases hb : p.inBounds (paddedOfIndex g.size)
  · simp only [Pos2.inBounds, paddedOfIndex, Bool.and_eq_true, decide_eq_true_eq] at hb
    exact ⟨hb.1.1.1, hb.1.1.2, hb.1.2, hb.2⟩
  · rw [if_neg hb] at h
    cases h

theorem walk_fuel_adequate (g : Grid) (start : Pos2) (d : Direction) :
    ¬ continuesTo g start d.vec (g.walkFuel + 1) := by
  intro h
  have hfge : 1 ≤ g.walkFuel := by
    unfold Grid.walkFuel
    omega
  have h1 := getId_inBounds g _ _ (h 1 (by omega) (by omega))
  have hf := getId_inBounds g _ _ (h g.walkFuel hfge (by omega))
  have hfuel : g.walkFuel =
      (2 * g.size.x + 1).toNat + (2 * g.size.y + 1).toNat + 2 := rfl
  cases d <;>
    simp only [Direction.vec, rayStep] at h1 hf <;>
    omega

theorem walk_eq_some_iff (g : Grid) (start : Pos2) (d : Direction) (q : Pos2) :
    g.walk start d.vec = some q ↔
      ∃ k, 1 ≤ k ∧ continuesTo g start d.vec k ∧
        (∃ id, g.getId (rayStep start d.vec k) = some (some id)) ∧
        q = rayStep start d.vec k := by
  constructor
  · intro hres
    obtain ⟨k, hk1, _, hcont, hhit, hq⟩ := walkAux_some g d.vec g.walkFuel start q hres
    exact ⟨k, hk1, hcont, hhit, hq⟩
  · rintro ⟨k, hk1, hcont, ⟨id, hhit⟩, rfl⟩
    cases hres : g.walk start d.vec with
    | some q' =>
      obtain ⟨k', hk1', _, hcont', ⟨id', hhit'⟩, hq'⟩ :=
        walkAux_some g d.vec g.walkFuel start q' hres
      have hk : k = k' := stop_unique g start d.vec k k' hk1 hcont
        (by rw [hhit]; simp) hk1' hcont' (by rw [hhit']; simp)
      rw [hq', hk]
    | none =>
      rcases walkAux_none g d.vec g.walkFuel start hres with
        ⟨k', hk1', _, hcont', hexit'⟩ | hcont'
      · have hk : k = k' := stop_unique g start d.vec k k' hk1 hcont
          (by rw [hhit]; simp) hk1' hcont' (by rw [hexit']; simp)
        rw [hk] at hhit
        rw [hhit] at hexit'
        cases hexit'
      · exact absurd hcont' (walk_fuel_adequate g start d)

theorem walk_eq_none_iff (g : Grid) (start : Pos2) (d : Direction) :
    g.walk start d.vec = Option.none ↔
      ∃ k, 1 ≤ k ∧ continuesTo g start d.vec k ∧
        g.getId (rayStep start d.vec k) = Option.none := by
  constructor
  · intro hres
    rcases walkAux_none g d.vec g.walkFuel start hres with
      ⟨k, hk1, _, hcont, hexit⟩ | hcont
    · exact ⟨k, hk1, hcont, hexit⟩
    · exact absurd hcont (walk_fuel_adequate g start d)
  · rintro ⟨k, hk1, hcont, hexit⟩
    cases hres : g.walk start d.vec with
    | some q' =>
      obtain ⟨k', hk1', _, hcont', ⟨id', hhit'⟩, hq'⟩ :=
        walkAux_some g d.vec g.walkFuel start q' hres
      have hk : k = k' := stop_unique g start d.vec k k' hk1 hcont
        (by rw [hexit]; simp) hk1' hcont' (by rw [hhit']; simp)
      rw [hk] at hexit
      rw [hexit] at hhit'
      cases hhit'
    | none => rfl

/-- C7: walk semantics. Walking from a start position in a unit direction
stops at rayStep start dir k for the least k whose position holds a node,
having skipped exactly the in-bounds empty positions before it; it returns
None iff the walk leaves the grid bounds (getId = none) before meeting a
node. Concretely, over the row [node, empty, empty, node], walking east
from cell (0, 0) stops at cell (3, 0)'s padded position and walking east
from cell (3, 0) returns None. -/
theorem walk_first_node_spec :
    (∀ (g : Grid) (start : Pos2) (d : Direction) (q : Pos2),
       g.walk start d.vec = some q ↔
         ∃ k, 1 ≤ k ∧ continuesTo g start d.vec k ∧
           (∃ id, g.getId (rayStep start d.vec k) = some (some id)) ∧
           q = rayStep start d.vec k) ∧
    (∀ (g : Grid) (start : Pos2) (d : Direction),
       g.walk start d.vec = Option.none ↔
         ∃ k, 1 ≤ k ∧ continuesTo g start d.vec k ∧
           g.getId (rayStep start d.vec k) = Option.none) ∧
    (gridOfAst walkRowGrid).walk (paddedOfIndex ⟨0, 0⟩) Direction.east.vec =
      some (paddedOfIndex ⟨3, 0⟩) ∧
    (gridOfAst walkRowGrid).walk (paddedOfIndex ⟨3, 0⟩) Direction.east.vec =
      Option.none :=
  ⟨walk_eq_some_iff, walk_eq_none_iff, by decide, by decide⟩

/-! Parity facts about the routing geometry. -/

/-- Numeric rank of a FreeAxisCount, matching the derived Ord. -/
def FreeAxisCount.rank : FreeAxisCount → Nat
  | .zero => 0
  | .one .x => 1
  | .one .y => 2
  | .two => 3

theorem FreeAxisCount.cmp_eq_lt_iff (a b : FreeAxisCount) :
    FreeAxisCount.cmp a b = .lt ↔ a.rank < b.rank := by
  cases a <;> cases b <;>
    first
    | (rename_i ax bx; cases ax <;> cases bx <;> simp [cmp, rank])
    | (rename_i ax; cases ax <;> simp [cmp, rank])
    | simp [cmp, rank]

theorem fromPos_parity (p : Pos2) :
    (FreeAxisCount.fromPos p = .zero ↔ (p.x % 2 = 1 ∧ p.y % 2 = 1)) ∧
    (FreeAxisCount.fromPos p = .one .x ↔ (p.x % 2 = 1 ∧ p.y % 2 = 0)) ∧
    (FreeAxisCount.fromPos p = .one .y ↔ (p.x % 2 = 0 ∧ p.y % 2 = 1)) ∧
    (FreeAxisCount.fromPos p = .two ↔ (p.x % 2 = 0 ∧ p.y % 2 = 0)) := by
  unfold FreeAxisCount.fromPos
  rcases (by omega : p.x % 2 = 0 ∨ p.x % 2 = 1) with hx | hx <;>
    rcases (by omega : p.y % 2 = 0 ∨ p.y % 2 = 1) with hy | hy <;>
      simp [hx, hy]

/-- A link point has exactly one odd (cell-aligned) coordinate, the odd
one being along the axis perpendicular to the side. -/
theorem linkPoint_parity (s : PosSide) :
    (s.padded.x % 2 = 1 ∧ s.padded.y % 2 = 0 ∧ (s.side = .north ∨ s.side = .south)) ∨
    (s.padded.x % 2 = 0 ∧ s.padded.y % 2 = 1 ∧ (s.side = .west ∨ s.side = .east)) := by
  obtain ⟨o, side⟩ := s
  cases side <;>
    simp [PosSide.padded, paddedOfIndex, Direction.vec, Pos2.add_x, Pos2.add_y] <;>
    omega

theorem gridStep_fold_aligned (ns : List (IndexPos × Node)) :
    ∀ (maps : List (PaddedPos × Identifier) × List (Identifier × List PaddedPos)),
      (∀ p id, alookup maps.1 p = some id → p.x % 2 = 1 ∧ p.y % 2 = 1) →
      ∀ p id, alookup (ns.foldl gridStep maps).1 p = some id →
        p.x % 2 = 1 ∧ p.y % 2 = 1 := by
  induction ns with
  | nil => intro maps h p id hp; exact h p id hp
  | cons pn rest ih =>
    intro maps h p id hp
    rw [List.foldl_cons] at hp
    refine ih (gridStep maps pn) ?_ p id hp
    intro p' id' hp'
    unfold gridStep at hp'
    rw [alookup_ainsert] at hp'
    by_cases hc : p' = paddedOfIndex pn.1
    · subst hc
      simp [paddedOfIndex]
      omega
    · rw [if_neg hc] at hp'
      exact h p' id' hp'

/-- Every occupied position of a grid built from an AST grid is a cell
position: both padded coordinates are odd. -/
theorem occupied_aligned (ag : ASTGrid) (p : Pos2) (id : Identifier)
    (h : alookup (gridOfAst ag).positionToId p = some id) :
    p.x % 2 = 1 ∧ p.y % 2 = 1 := by
  refine gridStep_fold_aligned ag.nodes ([], []) ?_ p id h
  intro p' id' hp'
  simp [alookup] at hp'

theorem straightLine_some (p q : Pos2) (d : Direction)
    (h : Pos2.straightLine p q = some d) :
    ((d = .east ∨ d = .west) ∧ p.y = q.y ∧ p.x ≠ q.x) ∨
    ((d = .north ∨ d = .south) ∧ p.x = q.x ∧ p.y ≠ q.y) := by
  have h' : (match (q - p).x == 0, (q - p).y == 0 with
      | false, false => Option.none
      | true, true => Option.none
      | false, true => Pos2.xDirection p q
      | true, false => Pos2.yDirection p q) = some d := h
  clear h
  by_cases hx : (q - p).x = 0 <;> by_cases hy : (q - p).y = 0
  · rw [show ((q - p).x == 0) = true from by simp [hx],
        show ((q - p).y == 0) = true from by simp [hy]] at h'
    cases h'
  · rw [show ((q - p).x == 0) = true from by simp [hx],
        show ((q - p).y == 0) = false from by simp [hy]] at h'
    have h'' : Pos2.yDirection p q = some d := h'
    unfold Pos2.yDirection at h''
    rw [Pos2.sub_x] at hx
    rw [Pos2.sub_y] at hy
    split_ifs at h'' with h1 h2
    · cases h''
      exact Or.inr ⟨Or.inr rfl, by omega, by omega⟩
    · cases h''
      exact Or.inr ⟨Or.inl rfl, by omega, by omega⟩
  · rw [show ((q - p).x == 0) = false from by simp [hx],
        show ((q - p).y == 0) = true from by simp [hy]] at h'
    have h'' : Pos2.xDirection p q = some d := h'
    unfold Pos2.xDirection at h''
    rw [Pos2.sub_x] at hx
    rw [Pos2.sub_y] at hy
    split_ifs at h'' with h1 h2
    · cases h''
      exact Or.inl ⟨Or.inl rfl, by omega, by omega⟩
    · cases h''
      exact Or.inl ⟨Or.inr rfl, by omega, by omega⟩
  · rw [show ((q - p).x == 0) = false from by simp [hx],
        show ((q - p).y == 0) = false from by simp [hy]] at h'
    cases h'

theorem lineTest_false_axis (g : Grid) (p q : Pos2) (d : Direction) (free : Axis)
    (hline : Pos2.straightLine p q = some d)
    (hfp : FreeAxisCount.fromPos p = .one free)
    (hfail : lineDoesNotOverlapNodes g p q = false) :
    Axis.fromDir d ≠ free := by
  intro heq
  simp only [lineDoesNotOverlapNodes, hline, hfp, heq, if_pos] at hfail
  simp at hfail

/-- Master characterization of get_best_corner outside the straight-line
case: it always returns a corner, the corner is one of the two L-corner
candidates, a One-count result reports the corner's true free-axis count,
and a corner that scores strictly below some candidate is selected only
when it passed the walk-based direct-connection test. -/
theorem getBestCorner_master (g : Grid) (a b : PosSide)
    (hline : Pos2.straightLine a.padded b.padded = Option.none) :
    ∃ c n, getBestCorner g a b = some (c, n) ∧
      (c = (⟨a.padded.x, b.padded.y⟩ : Pos2) ∨ c = (⟨b.padded.x, a.padded.y⟩ : Pos2)) ∧
      (n = .two ∨ ∃ ax, n = .one ax ∧ FreeAxisCount.fromPos c = .one ax) ∧
      (canMakeDirectConnection g a b c = true ∨
        (FreeAxisCount.cmp (FreeAxisCount.fromPos c)
            (FreeAxisCount.fromPos ⟨a.padded.x, b.padded.y⟩) ≠ .lt ∧
         FreeAxisCount.cmp (FreeAxisCount.fromPos c)
            (FreeAxisCount.fromPos ⟨b.padded.x, a.padded.y⟩) ≠ .lt)) := by
  rcases linkPoint_parity a with ⟨hax, hay, -⟩ | ⟨hax, hay, -⟩ <;>
    rcases linkPoint_parity b with ⟨hbx, hby, -⟩ | ⟨hbx, hby, -⟩
  · -- both link points (odd, even): both candidates One X
    have hA : FreeAxisCount.fromPos ⟨a.padded.x, b.padded.y⟩ = .one .x :=
      (fromPos_parity _).2.1.mpr ⟨hax, hby⟩
    have hB : FreeAxisCount.fromPos ⟨b.padded.x, a.padded.y⟩ = .one .x :=
      (fromPos_parity _).2.1.mpr ⟨hbx, hay⟩
    have hbc : getBestCorner g a b =
        (if canMakeDirectConnection g a b ⟨a.padded.x, b.padded.y⟩ then
          some (⟨a.padded.x, b.padded.y⟩, .two)
         else if canMakeDirectConnection g a b ⟨b.padded.x, a.padded.y⟩ then
          some (⟨b.padded.x, a.padded.y⟩, .two)
         else some (⟨b.padded.x, a.padded.y⟩, .one .x)) := by
      simp [getBestCorner, hline, sortCornerPair, hA, hB, FreeAxisCount.cmp]
    by_cases hd0 : canMakeDirectConnection g a b ⟨a.padded.x, b.padded.y⟩ = true
    · exact ⟨_, _, by rw [hbc]; simp [hd0], Or.inl rfl, Or.inl rfl, Or.inl hd0⟩
    · have hd0' : canMakeDirectConnection g a b ⟨a.padded.x, b.padded.y⟩ = false :=
        Bool.not_eq_true _ ▸ (by simpa using hd0)
      by_cases hd1 : canMakeDirectConnection g a b ⟨b.padded.x, a.padded.y⟩ = true
      · exact ⟨_, _, by rw [hbc]; simp [hd0', hd1], Or.inr rfl, Or.inl rfl, Or.inl hd1⟩
      · have hd1' : canMakeDirectConnection g a b ⟨b.padded.x, a.padded.y⟩ = false :=
          Bool.not_eq_true _ ▸ (by simpa using hd1)
        refine ⟨_, _, by rw [hbc]; simp [hd0', hd1'], Or.inr rfl,
          Or.inr ⟨.x, rfl, hB⟩, Or.inr ⟨?_, ?_⟩⟩
        · rw [hB, hA]; simp [FreeAxisCount.cmp]
        · rw [hB]; simp [FreeAxisCount.cmp]
  · -- a (odd, even), b (even, odd): candidates Zero and Two
    have hA : FreeAxisCount.fromPos ⟨a.padded.x, b.padded.y⟩ = .zero :=
      (fromPos_parity _).1.mpr ⟨hax, hby⟩
    have hB : FreeAxisCount.fromPos ⟨b.padded.x, a.padded.y⟩ = .two :=
      (fromPos_parity _).2.2.2.mpr ⟨hbx, hay⟩
    have hbc : getBestCorner g a b =
        (if canMakeDirectConnection g a b ⟨a.padded.x, b.padded.y⟩ then
          some (⟨a.padded.x, b.padded.y⟩, .two)
         else some (⟨b.padded.x, a.padded.y⟩, .two)) := by
      simp [getBestCorner, hline, sortCornerPair, hA, hB, FreeAxisCount.cmp]
    by_cases hd0 : canMakeDirectConnection g a b ⟨a.padded.x, b.padded.y⟩ = true
    · exact ⟨_, _, by rw [hbc]; simp [hd0], Or.inl rfl, Or.inl rfl, Or.inl hd0⟩
    · have hd0' : canMakeDirectConnection g a b ⟨a.padded.x, b.padded.y⟩ = false :=
        Bool.not_eq_true _ ▸ (by simpa using hd0)
      refine ⟨_, _, by rw [hbc]; simp [hd0'], Or.inr rfl, Or.inl rfl,
        Or.inr ⟨?_, ?_⟩⟩
      · rw [hB, hA]; simp [FreeAxisCount.cmp]
      · rw [hB]; simp [FreeAxisCount.cmp]
  · -- a (even, odd), b (odd, even): candidates Two and Zero
    have hA : FreeAxisCount.fromPos ⟨a.padded.x, b.padded.y⟩ = .two :=
      (fromPos_parity _).2.2.2.mpr ⟨hax, hby⟩
    have hB : FreeAxisCount.fromPos ⟨b.padded.x, a.padded.y⟩ = .zero :=
      (fromPos_parity _).1.mpr ⟨hbx, hay⟩
    have hbc : getBestCorner g a b =
        (if canMakeDirectConnection g a b ⟨b.padded.x, a.padded.y⟩ then
          some (⟨b.padded.x, a.padded.y⟩, .two)
         else some (⟨a.padded.x, b.padded.y⟩, .two)) := by
      simp [getBestCorner, hline, sortCornerPair, hA, hB, FreeAxisCount.cmp]
    by_cases hd0 : canMakeDirectConnection g a b ⟨b.padded.x, a.padded.y⟩ = true
    · exact ⟨_, _, by rw [hbc]; simp [hd0], Or.inr rfl, Or.inl rfl, Or.inl hd0⟩
    · have hd0' : canMakeDirectConnection g a b ⟨b.padded.x, a.padded.y⟩ = false :=
        Bool.not_eq_true _ ▸ (by simpa using hd0)
      refine ⟨_, _, by rw [hbc]; simp [hd0'], Or.inl rfl, Or.inl rfl,
        Or.inr ⟨?_, ?_⟩⟩
      · rw [hA]; simp [FreeAxisCount.cmp]
      · rw [hA, hB]; simp [FreeAxisCount.cmp]
  · -- both link points (even, odd): both candidates One Y
    have hA : FreeAxisCount.fromPos ⟨a.padded.x, b.padded.y⟩ = .one .y :=
      (fromPos_parity _).2.2.1.mpr ⟨hax, hby⟩
    have hB : FreeAxisCount.fromPos ⟨b.padded.x, a.padded.y⟩ = .one .y :=
      (fromPos_parity _).2.2.1.mpr ⟨hbx, hay⟩
    have hbc : getBestCorner g a b =
        (if canMakeDirectConnection g a b ⟨a.padded.x, b.padded.y⟩ then
          some (⟨a.padded.x, b.padded.y⟩, .two)
         else if canMakeDirectConnection g a b ⟨b.padded.x, a.padded.y⟩ then
          some (⟨b.padded.x, a.padded.y⟩, .two)
         else some (⟨b.padded.x, a.padded.y⟩, .one .y)) := by
      simp [getBestCorner, hline, sortCornerPair, hA, hB, FreeAxisCount.cmp]
    by_cases hd0 : canMakeDirectConnection g a b ⟨a.padded.x, b.padded.y⟩ = true
    · exact ⟨_, _, by rw [hbc]; simp [hd0], Or.inl rfl, Or.inl rfl, Or.inl hd0⟩
    · have hd0' : canMakeDirectConnection g a b ⟨a.padded.x, b.padded.y⟩ = false :=
        Bool.not_eq_true _ ▸ (by simpa using hd0)
      by_cases hd1 : canMakeDirectConnection g a b ⟨b.padded.x, a.padded.y⟩ = true
      · exact ⟨_, _, by rw [hbc]; simp [hd0', hd1], Or.inr rfl, Or.inl rfl, Or.inl hd1⟩
      · have hd1' : canMakeDirectConnection g a b ⟨b.padded.x, a.padded.y⟩ = false :=
          Bool.not_eq_true _ ▸ (by simpa using hd1)
        refine ⟨_, _, by rw [hbc]; simp [hd0', hd1'], Or.inr rfl,
          Or.inr ⟨.y, rfl, hB⟩, Or.inr ⟨?_, ?_⟩⟩
        · rw [hB, hA]; simp [FreeAxisCount.cmp]
        · rw [hB]; simp [FreeAxisCount.cmp]

theorem makeConnection_shape (src dst : PosSide) (mid : List Pos2) :
    (makeConnection src dst mid).length = mid.length + 4 ∧
    (makeConnection src dst mid).head? = some (paddedOfIndex src.origin) ∧
    (makeConnection src dst mid).getLast? = some (paddedOfIndex dst.origin) := by
  refine ⟨?_, rfl, ?_⟩
  · simp [makeConnection]
  · unfold makeConnection
    rw [show [paddedOfIndex src.origin, src.padded] ++ mid ++ [dst.padded, paddedOfIndex dst.origin] =
        ([paddedOfIndex src.origin, src.padded] ++ mid ++ [dst.padded]) ++ [paddedOfIndex dst.origin]
      from by simp]
    exact List.getLast?_concat _

/-- The (direction, nudged corner) candidate chosen in get_path's
One-free-axis branch. -/
def nudgeChosen (sF sT c : Pos2) (ax : Axis) : Direction × Pos2 :=
  let dirs : Direction × Direction :=
    match ax with
    | .x => (.west, .east)
    | .y => (.north, .south)
  minByTaxicab sF sT (dirs.1, c + (dirs.1).vec) (dirs.2, c + (dirs.2).vec)

/-- The mid waypoints produced by get_path's One-free-axis branch. -/
def midOne (sF sT c : Pos2) (ax : Axis) : List Pos2 :=
  let chosen := nudgeChosen sF sT c ax
  (if Pos2.straightLine sF chosen.2 = Option.none then [sF + chosen.1.vec] else []) ++
  [chosen.2] ++
  (if Pos2.straightLine sT chosen.2 = Option.none then [sT + chosen.1.vec] else [])

theorem nudgeChosen_spec (sF sT c : Pos2) (ax : Axis) :
    ((nudgeChosen sF sT c ax).2 = c + ((nudgeChosen sF sT c ax).1).vec) ∧
    (ax = .x → (nudgeChosen sF sT c ax).1 = .west ∨ (nudgeChosen sF sT c ax).1 = .east) ∧
    (ax = .y → (nudgeChosen sF sT c ax).1 = .north ∨ (nudgeChosen sF sT c ax).1 = .south) := by
  cases ax
  · refine ⟨?_, ?_, ?_⟩
    · unfold nudgeChosen minByTaxicab
      dsimp only
      split_ifs <;> simp
    · intro _
      unfold nudgeChosen minByTaxicab
      dsimp only
      split_ifs <;> simp
    · intro h
      simp at h
  · refine ⟨?_, ?_, ?_⟩
    · unfold nudgeChosen minByTaxicab
      dsimp only
      split_ifs <;> simp
    · intro h
      simp at h
    · intro _
      unfold nudgeChosen minByTaxicab
      dsimp only
      split_ifs <;> simp

theorem mem_midOne (sF sT c : Pos2) (ax : Axis) (w : Pos2)
    (h : w ∈ midOne sF sT c ax) :
    w = sF + ((nudgeChosen sF sT c ax).1).vec ∨ w = (nudgeChosen sF sT c ax).2 ∨
    w = sT + ((nudgeChosen sF sT c ax).1).vec := by
  unfold midOne at h
  by_cases h1 : Pos2.straightLine sF (nudgeChosen sF sT c ax).2 = Option.none <;>
    by_cases h2 : Pos2.straightLine sT (nudgeChosen sF sT c ax).2 = Option.none <;>
      simp [h1, h2] at h <;> tauto

/-- Evaluation of get_path away from the degenerate case: the result is
always a makeConnection wrapper, and every mid waypoint either has at
least one lane coordinate (free-axis count not Zero) or is the corner
selected by get_best_corner's direct-connection shortcut. -/
theorem getPath_eval (g : Grid) (f t : IndexPos × Direction)
    (hne : ¬(PosSide.padded ⟨f.1, f.2⟩ = PosSide.padded ⟨t.1, t.2⟩)) :
    ∃ mid, getPath g f t = some (makeConnection ⟨f.1, f.2⟩ ⟨t.1, t.2⟩ mid) ∧
      ∀ w ∈ mid, FreeAxisCount.fromPos w ≠ .zero ∨
        getBestCorner g ⟨f.1, f.2⟩ ⟨t.1, t.2⟩ = some (w, .two) := by
  cases hsl : Pos2.straightLine (PosSide.padded ⟨f.1, f.2⟩) (PosSide.padded ⟨t.1, t.2⟩) with
  | some dir =>
    by_cases htest : lineDoesNotOverlapNodes g (PosSide.padded ⟨f.1, f.2⟩)
        (PosSide.padded ⟨t.1, t.2⟩) = true
    · refine ⟨[], ?_, by simp⟩
      simp only [getPath, hsl]
      rw [if_neg hne, if_pos htest]
    · have htest' : lineDoesNotOverlapNodes g (PosSide.padded ⟨f.1, f.2⟩)
          (PosSide.padded ⟨t.1, t.2⟩) = false := by simpa using htest
      refine ⟨[PosSide.padded ⟨f.1, f.2⟩ + (dir.rotateClockwise).vec,
               PosSide.padded ⟨t.1, t.2⟩ + (dir.rotateClockwise).vec], ?_, ?_⟩
      · simp only [getPath, hsl]
        rw [if_neg hne, if_neg (by simp [htest'])]
      · have hdirs := straightLine_some _ _ _ hsl
        intro w hw
        left
        intro hzero
        rw [(fromPos_parity w).1] at hzero
        simp only [List.mem_cons, List.not_mem_nil, or_false] at hw
        rcases linkPoint_parity ⟨f.1, f.2⟩ with ⟨hax, hay, -⟩ | ⟨hax, hay, -⟩
        · have hax' : FreeAxisCount.fromPos (PosSide.padded ⟨f.1, f.2⟩) = .one .x :=
            (fromPos_parity _).2.1.mpr ⟨hax, hay⟩
          have haxis := lineTest_false_axis g _ _ dir .x hsl hax' htest'
          rcases hdirs with ⟨hd, hyy, hxx⟩ | ⟨hd, hxx, hyy⟩
          · rcases hd with rfl | rfl <;> exact absurd rfl haxis
          · rcases hd with rfl | rfl <;> rcases hw with rfl | rfl <;>
              (simp only [Direction.rotateClockwise, Direction.vec,
                 Pos2.add_x, Pos2.add_y] at hzero
               omega)
        · have hax' : FreeAxisCount.fromPos (PosSide.padded ⟨f.1, f.2⟩) = .one .y :=
            (fromPos_parity _).2.2.1.mpr ⟨hax, hay⟩
          have haxis := lineTest_false_axis g _ _ dir .y hsl hax' htest'
          rcases hdirs with ⟨hd, hyy, hxx⟩ | ⟨hd, hxx, hyy⟩
          · rcases hd with rfl | rfl <;> rcases hw with rfl | rfl <;>
              (simp only [Direction.rotateClockwise, Direction.vec,
                 Pos2.add_x, Pos2.add_y] at hzero
               omega)
          · rcases hd with rfl | rfl <;> exact absurd rfl haxis
  | none =>
    obtain ⟨c, n, hres, hcand, hn, -⟩ := getBestCorner_master g ⟨f.1, f.2⟩ ⟨t.1, t.2⟩ hsl
    rcases hn with rfl | ⟨ax, rfl, hfpc⟩
    · refine ⟨[c], ?_, ?_⟩
      · simp only [getPath, hsl, hres]
        rw [if_neg hne]
      · intro w hw
        rcases (by simpa using hw : w = c) with rfl
        exact Or.inr hres
    · have hparA := linkPoint_parity ⟨f.1, f.2⟩
      have hparB := linkPoint_parity ⟨t.1, t.2⟩
      obtain ⟨hch2, hchx, hchy⟩ := nudgeChosen_spec (PosSide.padded ⟨f.1, f.2⟩)
        (PosSide.padded ⟨t.1, t.2⟩) c ax
      refine ⟨midOne (PosSide.padded ⟨f.1, f.2⟩) (PosSide.padded ⟨t.1, t.2⟩) c ax, ?_, ?_⟩
      · simp only [getPath, hsl, hres]
        rw [if_neg hne]
        cases ax <;> rfl
      · intro w hw
        left
        intro hzero
        rw [(fromPos_parity w).1] at hzero
        have hmem := mem_midOne _ _ _ _ _ hw
        cases ax with
        | x =>
          have hc : c.x % 2 = 1 ∧ c.y % 2 = 0 := ((fromPos_parity c).2.1).mp hfpc
          have hsfx : (PosSide.padded ⟨f.1, f.2⟩).x % 2 = 1 := by
            rcases hcand with rfl | rfl
            · rcases hparA with ⟨h1, -, -⟩ | ⟨h1, -, -⟩
              · exact h1
              · exact absurd hc.1 (by simp [h1])
            · rcases hparA with ⟨h1, -, -⟩ | ⟨-, h2, -⟩
              · exact h1
              · exact absurd hc.2 (by simp [h2])
          have hstx : (PosSide.padded ⟨t.1, t.2⟩).x % 2 = 1 := by
            rcases hcand with rfl | rfl
            · rcases hparB with ⟨h1, -, -⟩ | ⟨-, h2, -⟩
              · exact h1
              · exact absurd hc.2 (by simp [h2])
            · rcases hparB with ⟨h1, -, -⟩ | ⟨h1, -, -⟩
              · exact h1
              · exact absurd hc.1 (by simp [h1])
          have hvec : ((nudgeChosen (PosSide.padded ⟨f.1, f.2⟩)
              (PosSide.padded ⟨t.1, t.2⟩) c .x).1).vec.x = -1 ∨
              ((nudgeChosen (PosSide.padded ⟨f.1, f.2⟩)
              (PosSide.padded ⟨t.1, t.2⟩) c .x).1).vec.x = 1 := by
            rcases hchx rfl with h | h <;> rw [h] <;> simp [Direction.vec]
          have hvecy : ((nudgeChosen (PosSide.padded ⟨f.1, f.2⟩)
              (PosSide.padded ⟨t.1, t.2⟩) c .x).1).vec.y = 0 := by
            rcases hchx rfl with h | h <;> rw [h] <;> simp [Direction.vec]
          rcases hmem with rfl | rfl | rfl
          · rcases hvec with h | h <;>
              (simp only [Pos2.add_x] at hzero; omega)
          · rw [hch2] at hzero
            rcases hvec with h | h <;>
              (simp only [Pos2.add_x] at hzero; omega)
          · rcases hvec with h | h <;>
              (simp only [Pos2.add_x] at hzero; omega)
        | y =>
          have hc : c.x % 2 = 0 ∧ c.y % 2 = 1 := ((fromPos_parity c).2.2.1).mp hfpc
          have hsfy : (PosSide.padded ⟨f.1, f.2⟩).y % 2 = 1 := by
            rcases hcand with rfl | rfl
            · rcases hparA with ⟨h1, -, -⟩ | ⟨-, h2, -⟩
              · exact absurd hc.1 (by simp [h1])
              · exact h2
            · rcases hparA with ⟨-, h2, -⟩ | ⟨-, h2, -⟩
              · exact absurd hc.2 (by simp [h2])
              · exact h2
          have hsty : (PosSide.padded ⟨t.1, t.2⟩).y % 2 = 1 := by
            rcases hcand with rfl | rfl
            · rcases hparB with ⟨-, h2, -⟩ | ⟨-, h2, -⟩
              · exact absurd hc.2 (by simp [h2])
              · exact h2
            · rcases hparB with ⟨h1, -, -⟩ | ⟨-, h2, -⟩
              · exact absurd hc.1 (by simp [h1])
              · exact h2
          have hvec : ((nudgeChosen (PosSide.padded ⟨f.1, f.2⟩)
              (PosSide.padded ⟨t.1, t.2⟩) c .y).1).vec.y = -1 ∨
              ((nudgeChosen (PosSide.padded ⟨f.1, f.2⟩)
              (PosSide.padded ⟨t.1, t.2⟩) c .y).1).vec.y = 1 := by
            rcases hchy rfl with h | h <;> rw [h] <;> simp [Direction.vec]
          rcases hmem with rfl | rfl | rfl
          · rcases hvec with h | h <;>
              (simp only [Pos2.add_y] at hzero; omega)
          · rw [hch2] at hzero
            rcases hvec with h | h <;>
              (simp only [Pos2.add_y] at hzero; omega)
          · rcases hvec with h | h <;>
              (simp only [Pos2.add_y] at hzero; omega)

/-- C3 (amended): when the two link points share neither a row nor a
column, the corner chosen by get_best_corner is either not strictly
lower-scoring than any of the two L-corner candidates, or it passed the
walk-based direct-connection test on both legs — i.e. the walk test is
consulted outside ties as well, and it is the only way a lower-scoring
corner can win. -/
theorem corner_choice_amended (g : Grid) (a b : PosSide) (c : Pos2)
    (n : FreeAxisCount)
    (hline : Pos2.straightLine a.padded b.padded = Option.none)
    (hres : getBestCorner g a b = some (c, n)) :
    canMakeDirectConnection g a b c = true ∨
    (FreeAxisCount.cmp (FreeAxisCount.fromPos c)
        (FreeAxisCount.fromPos ⟨a.padded.x, b.padded.y⟩) ≠ .lt ∧
     FreeAxisCount.cmp (FreeAxisCount.fromPos c)
        (FreeAxisCount.fromPos ⟨b.padded.x, a.padded.y⟩) ≠ .lt) := by
  obtain ⟨c', n', hres', -, -, hthird⟩ := getBestCorner_master g a b hline
  rw [hres] at hres'
  injection hres' with h1
  have hc : c = c' := congrArg Prod.fst h1
  rw [← hc] at hthird
  exact hthird

/-- Witness for corner_choice_amended on the cornerGrid scenario. -/
theorem corner_choice_amended_witness :
    canMakeDirectConnection (gridOfAst cornerGrid)
      ⟨⟨0, 0⟩, .east⟩ ⟨⟨1, 1⟩, .north⟩ ⟨3, 1⟩ = true ∨
    (FreeAxisCount.cmp (FreeAxisCount.fromPos ⟨3, 1⟩)
        (FreeAxisCount.fromPos ⟨(PosSide.padded ⟨⟨0, 0⟩, .east⟩).x,
          (PosSide.padded ⟨⟨1, 1⟩, .north⟩).y⟩) ≠ .lt ∧
     FreeAxisCount.cmp (FreeAxisCount.fromPos ⟨3, 1⟩)
        (FreeAxisCount.fromPos ⟨(PosSide.padded ⟨⟨1, 1⟩, .north⟩).x,
          (PosSide.padded ⟨⟨0, 0⟩, .east⟩).y⟩) ≠ .lt) :=
  corner_choice_amended (gridOfAst cornerGrid) ⟨⟨0, 0⟩, .east⟩ ⟨⟨1, 1⟩, .north⟩
    ⟨3, 1⟩ .two (by decide) (by decide)

/-- C9: get_path always yields a waypoint list; it has exactly two
waypoints — the padded positions of the two endpoint cells — iff the two
link points coincide, and otherwise at least four waypoints, beginning
with from's cell position and ending with to's cell position. -/
theorem path_waypoints_spec (g : Grid) (f t : IndexPos × Direction) :
    ∃ ws, getPath g f t = some ws ∧
      ((ws.length = 2) ↔ PosSide.padded ⟨f.1, f.2⟩ = PosSide.padded ⟨t.1, t.2⟩) ∧
      (PosSide.padded ⟨f.1, f.2⟩ = PosSide.padded ⟨t.1, t.2⟩ →
        ws = [paddedOfIndex f.1, paddedOfIndex t.1]) ∧
      (¬(PosSide.padded ⟨f.1, f.2⟩ = PosSide.padded ⟨t.1, t.2⟩) →
        4 ≤ ws.length ∧ ws.head? = some (paddedOfIndex f.1) ∧
        ws.getLast? = some (paddedOfIndex t.1)) := by
  by_cases heq : PosSide.padded ⟨f.1, f.2⟩ = PosSide.padded ⟨t.1, t.2⟩
  · refine ⟨[paddedOfIndex f.1, paddedOfIndex t.1], ?_, ?_,
      fun _ => rfl, fun hne => absurd heq hne⟩
    · simp only [getPath]
      rw [if_pos heq]
    · simp [heq]
  · obtain ⟨mid, hpath, -⟩ := getPath_eval g f t heq
    obtain ⟨hlen, hhead, hlast⟩ := makeConnection_shape ⟨f.1, f.2⟩ ⟨t.1, t.2⟩ mid
    refine ⟨_, hpath, ?_, fun he => absurd he heq,
      fun _ => ⟨by omega, hhead, hlast⟩⟩
    constructor
    · intro h2
      rw [hlen] at h2
      omega
    · intro he
      exact absurd he heq

/-- C4 (amended): on a grid built from an AST grid, no waypoint of a
routed polyline coincides with an occupied cell other than the two
endpoint cells, except possibly the corner selected by get_best_corner's
direct-connection shortcut (returned with count Two). -/
theorem path_avoids_nodes_amended (ag : ASTGrid) (f t : IndexPos × Direction)
    (ws : List Pos2) (w : Pos2) (id : Identifier)
    (hpath : getPath (gridOfAst ag) f t = some ws)
    (hmem : w ∈ ws)
    (hocc : alookup (gridOfAst ag).positionToId w = some id) :
    w = paddedOfIndex f.1 ∨ w = paddedOfIndex t.1 ∨
    getBestCorner (gridOfAst ag) ⟨f.1, f.2⟩ ⟨t.1, t.2⟩ = some (w, .two) := by
  have hal := occupied_aligned ag w id hocc
  by_cases heq : PosSide.padded ⟨f.1, f.2⟩ = PosSide.padded ⟨t.1, t.2⟩
  · have h2 : getPath (gridOfAst ag) f t =
        some [paddedOfIndex f.1, paddedOfIndex t.1] := by
      simp only [getPath]
      rw [if_pos heq]
    rw [h2] at hpath
    have hws := Option.some.inj hpath
    rw [← hws] at hmem
    rcases (by simpa using hmem : w = paddedOfIndex f.1 ∨ w = paddedOfIndex t.1) with
      rfl | rfl
    · exact Or.inl rfl
    · exact Or.inr (Or.inl rfl)
  · obtain ⟨mid, hpath', hmid⟩ := getPath_eval (gridOfAst ag) f t heq
    rw [hpath'] at hpath
    have hws := Option.some.inj hpath
    rw [← hws] at hmem
    have hmem' : w = paddedOfIndex f.1 ∨ w = PosSide.padded ⟨f.1, f.2⟩ ∨
        w ∈ mid ∨ w = PosSide.padded ⟨t.1, t.2⟩ ∨ w = paddedOfIndex t.1 := by
      simpa [makeConnection, or_assoc] using hmem
    rcases hmem' with rfl | hw | hw | hw | rfl
    · exact Or.inl rfl
    · rcases linkPoint_parity ⟨f.1, f.2⟩ with ⟨-, h2, -⟩ | ⟨h1, -, -⟩ <;>
        (rw [hw] at hal; omega)
    · rcases hmid w hw with hnz | hcorner
      · exact absurd ((fromPos_parity w).1.mpr hal) hnz
      · exact Or.inr (Or.inr hcorner)
    · rcases linkPoint_parity ⟨t.1, t.2⟩ with ⟨-, h2, -⟩ | ⟨h1, -, -⟩ <;>
        (rw [hw] at hal; omega)
    · exact Or.inr (Or.inl rfl)

/-- Witness for path_avoids_nodes_amended on the blockedCornerGrid
scenario: the occupied waypoint (3, 1) is covered by the shortcut-corner
exception. -/
theorem path_avoids_nodes_amended_witness :
    (⟨3, 1⟩ : Pos2) = paddedOfIndex ⟨0, 0⟩ ∨
    (⟨3, 1⟩ : Pos2) = paddedOfIndex ⟨1, 1⟩ ∨
    getBestCorner (gridOfAst blockedCornerGrid) ⟨⟨0, 0⟩, .east⟩ ⟨⟨1, 1⟩, .north⟩ =
      some (⟨3, 1⟩, .two) :=
  path_avoids_nodes_amended blockedCornerGrid (⟨0, 0⟩, .east) (⟨1, 1⟩, .north)
    [⟨1, 1⟩, ⟨2, 1⟩, ⟨3, 1⟩, ⟨3, 2⟩, ⟨3, 3⟩] ⟨3, 1⟩ "c"
    (by decide) (by decide) (by decide)
